import Mathlib

/-!
Shallow embedding of `lib/ansible/modules/network/eos/eos_user.py` (the
declarative EOS local-user reconciliation module) and proofs about it.

User records are Python dicts with a fixed key set after normalization;
we embed them as a structure with `Option` fields (Python `None` = `none`).
Python truthiness (`None`, `False`, `0`, `""` and `{}`/`[]` are falsy) is
made explicit by the `truthy*` helpers.
-/

namespace EosUser

/-- Python truthiness of an optional string: `None` and `""` are falsy. -/
def truthyStr : Option String → Bool
  | none => false
  | some s => s ≠ ""

/-- Python truthiness of an optional integer: `None` and `0` are falsy. -/
def truthyInt : Option Int → Bool
  | none => false
  | some n => n ≠ 0

/-- Python truthiness of an optional boolean: `None` and `False` are falsy. -/
def truthyBool : Option Bool → Bool
  | none => false
  | some b => b

/-- A fully populated user entry, the dict shape produced by
`map_params_to_obj` (want records) and `map_config_to_obj` (have records). -/
structure UserRecord where
  username : String
  password : Option String
  nopassword : Option Bool
  privilege : Option Int
  role : Option String
  sshkey : Option String
  state : String
deriving DecidableEq

/-- The keys of a normalized user dict, in insertion order
(`username` first, then the assignment order of `map_params_to_obj`). -/
inductive Field where
  | username | password | nopassword | privilege | role | sshkey | state
deriving DecidableEq

def fieldList : List Field :=
  [.username, .password, .nopassword, .privilege, .role, .sshkey, .state]

/-- Python truthiness of the value stored at a given key of a record. -/
def fieldTruthy (r : UserRecord) : Field → Bool
  | .username => r.username ≠ ""
  | .password => truthyStr r.password
  | .nopassword => truthyBool r.nopassword
  | .privilege => truthyInt r.privilege
  | .role => truthyStr r.role
  | .sshkey => truthyStr r.sshkey
  | .state => r.state ≠ ""

/-- Python `==` between the values at a given key of two records. -/
def fieldEq (a b : UserRecord) : Field → Bool
  | .username => a.username == b.username
  | .password => a.password == b.password
  | .nopassword => a.nopassword == b.nopassword
  | .privilege => a.privilege == b.privilege
  | .role => a.role == b.role
  | .sshkey => a.sshkey == b.sshkey
  | .state => a.state == b.state

/-- The test `value and value != item[key]` inside `update_objects`. -/
def diffPred (entry item : UserRecord) (f : Field) : Bool :=
  fieldTruthy entry f && !(fieldEq entry item f)

/-- `next((i for i in have if i['username'] == entry['username']), None)`. -/
def findHave (hav : List UserRecord) (u : String) : Option UserRecord :=
  hav.find? (fun r => r.username == u)

/-- The body of the `for entry in want` loop of `update_objects`: the update
pairs contributed by one want entry.  `none` in the second component stands
for the empty dict `{}`. -/
def updateOne (entry : UserRecord) (hav : List UserRecord) :
    List (UserRecord × Option UserRecord) :=
  match findHave hav entry.username with
  | none => if entry.state == "present" then [(entry, none)] else []
  | some item => (fieldList.filter (diffPred entry item)).map (fun _ => (entry, some item))

/-- `update_objects(want, have)` from the source. -/
def update_objects (want hav : List UserRecord) :
    List (UserRecord × Option UserRecord) :=
  want.flatMap (fun e => updateOne e hav)

/-- `'username %s %s' % (want['username'], x)` -/
def addCmd (u x : String) : String := "username " ++ u ++ " " ++ x

/-- `have.get('role')` where `have` may be the empty dict. -/
def hRole : Option UserRecord → Option String
  | none => none
  | some r => r.role

def hPriv : Option UserRecord → Option Int
  | none => none
  | some r => r.privilege

def hPassword : Option UserRecord → Option String
  | none => none
  | some r => r.password

def hSshkey : Option UserRecord → Option String
  | none => none
  | some r => r.sshkey

def hNop : Option UserRecord → Option Bool
  | none => none
  | some r => r.nopassword

/-- The `needs_update('role')` branch of `map_obj_to_commands`. -/
def roleCmds (w : UserRecord) (ho : Option UserRecord) : List String :=
  if truthyStr w.role && (w.role ≠ hRole ho) then
    [addCmd w.username ("role " ++ w.role.getD "")]
  else []

/-- The `needs_update('privilege')` branch; `'privilege %s' % int` renders
via `toString`, matching Python `str` on integers. -/
def privCmds (w : UserRecord) (ho : Option UserRecord) : List String :=
  if truthyInt w.privilege && (w.privilege ≠ hPriv ho) then
    [addCmd w.username ("privilege " ++ toString (w.privilege.getD 0))]
  else []

/-- The `needs_update('password')` branch: the secret command is emitted only
when `update_password == 'always'` or `have` is the empty dict (falsy). -/
def pwCmds (pol : String) (w : UserRecord) (ho : Option UserRecord) : List String :=
  if truthyStr w.password && (w.password ≠ hPassword ho) then
    if pol == "always" || ho.isNone then
      [addCmd w.username ("secret " ++ w.password.getD "")]
    else []
  else []

/-- The `needs_update('sshkey')` branch. -/
def sshCmds (w : UserRecord) (ho : Option UserRecord) : List String :=
  if truthyStr w.sshkey && (w.sshkey ≠ hSshkey ho) then
    [addCmd w.username ("sshkey " ++ w.sshkey.getD "")]
  else []

/-- The `needs_update('nopassword')` branch, including the (dead) `else`
arm of `if want['nopassword']`. -/
def nopCmds (w : UserRecord) (ho : Option UserRecord) : List String :=
  if truthyBool w.nopassword && (w.nopassword ≠ hNop ho) then
    if truthyBool w.nopassword then [addCmd w.username "nopassword"]
    else ["no username " ++ w.username ++ " nopassword"]
  else []

/-- The body of the `for update in updates` loop of `map_obj_to_commands`:
commands contributed by one `(want, have)` pair. -/
def renderOne (pol : String) (p : UserRecord × Option UserRecord) : List String :=
  if p.1.state == "absent" then ["no username " ++ p.1.username]
  else
    roleCmds p.1 p.2 ++ privCmds p.1 p.2 ++ pwCmds pol p.1 p.2 ++
      sshCmds p.1 p.2 ++ nopCmds p.1 p.2

/-- `map_obj_to_commands(updates, module)`; `pol` is
`module.params['update_password']`. -/
def map_obj_to_commands (pol : String)
    (updates : List (UserRecord × Option UserRecord)) : List String :=
  updates.flatMap (renderOne pol)

/-- First-occurrence deduplication with an explicit seen-list, modelling
iteration over a Python `set` built from a list (a `set`'s iteration order
is unspecified; every claim below is insensitive to the order chosen). -/
def dedupFirstAux (seen : List String) : List String → List String
  | [] => []
  | x :: xs =>
    if seen.contains x then dedupFirstAux seen xs
    else x :: dedupFirstAux (x :: seen) xs

def dedupFirst (l : List String) : List String := dedupFirstAux [] l

/-! ## Record parser: `map_config_to_obj` and its regex helpers

The source matches small fixed `re` patterns; each pattern's behaviour is
embedded directly over character lists. -/

/-- Python regex `\s` restricted to the characters that occur in config
text (vertical tab and form feed never do). -/
def pyIsSpace (c : Char) : Bool :=
  c == ' ' || c == '\t' || c == '\n' || c == '\r'

/-- `pre` is a prefix of `l`. -/
def startsWithChars : List Char → List Char → Bool
  | [], _ => true
  | _ :: _, [] => false
  | p :: ps, b :: bs => p == b && startsWithChars ps bs

/-- Substring test, Python `pat in s`. -/
def containsChars (pat : List Char) : List Char → Bool
  | [] => startsWithChars pat []
  | c :: t => startsWithChars pat (c :: t) || containsChars pat t

/-- `re.search(<kw + blank> + r'(\S+)', cfg)`: the first position where the
literal keyword-plus-blank is followed by a nonspace character; returns the
greedy `\S+` capture. -/
def searchTok (pre : List Char) : List Char → Option (List Char)
  | [] => none
  | c :: t =>
    if startsWithChars pre (c :: t) then
      match (c :: t).drop pre.length with
      | [] => searchTok pre t
      | d :: rest =>
        if pyIsSpace d then searchTok pre t
        else some ((d :: rest).takeWhile (fun x => !pyIsSpace x))
    else searchTok pre t

/-- `re.search(<kw + blank> + r'(.+)$', cfg, re.M)`: the first position
where the literal keyword-plus-blank is followed by a non-newline
character; returns the capture running to the end of the line. -/
def searchLineTail (pre : List Char) : List Char → Option (List Char)
  | [] => none
  | c :: t =>
    if startsWithChars pre (c :: t) then
      match (c :: t).drop pre.length with
      | [] => searchLineTail pre t
      | d :: rest =>
        if d == '\n' then searchLineTail pre t
        else some ((d :: rest).takeWhile (fun x => x ≠ '\n'))
    else searchLineTail pre t

/-- Digits of a Python `int()` literal after the first digit: an underscore
is legal only between two digits. -/
def pyDigitsAux : List Char → Nat → Option Nat
  | [], acc => some acc
  | ['_'], _ => none
  | '_' :: d :: rest, acc =>
    if d.isDigit then pyDigitsAux rest (acc * 10 + (d.toNat - 48)) else none
  | c :: t, acc => if c.isDigit then pyDigitsAux t (acc * 10 + (c.toNat - 48)) else none

def pyNat : List Char → Option Nat
  | [] => none
  | c :: t => if c.isDigit then pyDigitsAux t (c.toNat - 48) else none

/-- Python `int(s)` on a whitespace-free token: optional sign, then digits
with single underscores allowed between digits; anything else raises. -/
def pyInt (s : String) : Option Int :=
  match s.data with
  | '+' :: t => (pyNat t).map (fun n => (n : Int))
  | '-' :: t => (pyNat t).map (fun n => -(n : Int))
  | t => (pyNat t).map (fun n => (n : Int))

/-- `parse_role(data)`. -/
def parse_role (cfg : String) : Option String :=
  (searchTok "role ".data cfg.data).map (fun l => String.mk l)

/-- `parse_sshkey(data)`. -/
def parse_sshkey (cfg : String) : Option String :=
  (searchLineTail "sshkey ".data cfg.data).map (fun l => String.mk l)

/-- `parse_privilege(data)`: `int(match.group(1))` raises (modelled as
`Except.error`) on a non-integer token. -/
def parse_privilege (cfg : String) : Except String (Option Int) :=
  match searchTok "privilege ".data cfg.data with
  | none => .ok none
  | some tok =>
    match pyInt (String.mk tok) with
    | some n => .ok (some n)
    | none => .error ("invalid literal for int() with base 10: " ++ String.mk tok)

/-- `str.split('\n')` over characters (structural, so that the kernel can
evaluate it). -/
def splitLinesChars : List Char → List (List Char)
  | [] => [[]]
  | c :: t =>
    if c = '\n' then [] :: splitLinesChars t
    else
      match splitLinesChars t with
      | w :: ws => (c :: w) :: ws
      | [] => [[c]]

/-- Split on newlines; the `^`/`$` of `re.M` match at these boundaries. -/
def pyLines (s : String) : List String :=
  (splitLinesChars s.data).map (fun l => String.mk l)

/-- `'\n'.join(l)` (structural). -/
def joinNl : List String → String
  | [] => ""
  | [x] => x
  | x :: y :: t => x ++ "\n" ++ joinNl (y :: t)

/-- One line's contribution to `re.findall(r'^username (\S+)', data, re.M)`. -/
def usernameHit (line : String) : Option String :=
  if startsWithChars "username ".data line.data then
    match (line.data.drop 9).takeWhile (fun c => !pyIsSpace c) with
    | [] => none
    | c :: t => some (String.mk (c :: t))
  else none

def usernameHits (data : String) : List String :=
  (pyLines data).filterMap usernameHit

/-- First suffix of `l` that begins with `pre` and continues with at least
one character: the unanchored match of `pre` + `.+$` within a line. -/
def firstMatchFrom (pre : List Char) : List Char → Option (List Char)
  | [] => none
  | c :: t =>
    if startsWithChars pre (c :: t) && pre.length < (c :: t).length then some (c :: t)
    else firstMatchFrom pre t

/-- `'\n'.join(re.findall(r'username %s .+$' % user, data, re.M))`.  The
source interpolates the username unescaped into the pattern; this model
treats it as a literal, which is faithful exactly for metacharacter-free
tokens (see `pyRegexMeta` and `plainToken` below) — a token with a regex
metacharacter can make the real `re.findall` raise `re.error` or match
different lines, so theorems quantifying over arbitrary blobs carry a
`plainToken` hypothesis on the extracted usernames. -/
def userCfg (data user : String) : String :=
  joinNl
    (((pyLines data).filterMap
      (fun line => firstMatchFrom ("username " ++ user ++ " ").data line.data)).map
      (fun l => String.mk l))

/-- The per-user record built inside the `for user in set(match)` loop of
`map_config_to_obj`. -/
def buildHave (data user : String) : Except String UserRecord := do
  let cfg := userCfg data user
  let priv ← parse_privilege cfg
  pure {
    username := user,
    state := "present",
    nopassword := some (containsChars "nopassword".data cfg.data),
    password := none,
    sshkey := parse_sshkey cfg,
    privilege := priv,
    role := parse_role cfg }

/-- `map_config_to_obj(module)` applied to the fetched config text. -/
def map_config_to_obj (data : String) : Except String (List UserRecord) :=
  match usernameHits data with
  | [] => .ok []
  | l => (dedupFirst l).mapM (buildHave data)

/-! ## Input normalizer: `validate_privilege`, `get_param_value`,
`map_params_to_obj` -/

/-- `validate_privilege(value, module)`; `module.fail_json` is modelled as
`Except.error`. -/
def validate_privilege (v : Int) : Except String Unit :=
  if 1 ≤ v ∧ v ≤ 15 then .ok ()
  else .error ("privilege must be between 1 and 15, got " ++ toString v)

/-- `get_param_value` for a string-typed key with no `validate_<key>`
function in scope: a falsy item value falls back to `module.params[key]`. -/
def getParamStr (itemVal defVal : Option String) : Option String :=
  if truthyStr itemVal then itemVal else defVal

/-- `get_param_value` for the boolean `nopassword` key (no validator). -/
def getParamBool (itemVal defVal : Option Bool) : Option Bool :=
  if truthyBool itemVal then itemVal else defVal

/-- `get_param_value('privilege', ...)`: a falsy item value falls back to
the module-level param; `validate_privilege` then runs only when the
resulting value is truthy (`if all((value, validator))`). -/
def getParamPriv (itemVal defVal : Option Int) : Except String (Option Int) :=
  let value := if truthyInt itemVal then itemVal else defVal
  if truthyInt value then do
    validate_privilege (value.getD 0)
    pure value
  else pure value

/-- `get_param_value('state', ...)`: `module.params['state']` is a plain
string (defaulted to `'present'` by the argument spec). -/
def getParamState (itemVal : Option String) (defVal : String) : String :=
  if truthyStr itemVal then itemVal.getD defVal else defVal

/-- A partially specified user out of the `users` list: a mapping whose
absent keys are `none`. -/
structure PartialUser where
  username : Option String
  password : Option String
  nopassword : Option Bool
  privilege : Option Int
  role : Option String
  sshkey : Option String
  state : Option String
deriving DecidableEq

/-- An element of `module.params['users']`: either a bare username string
or a partial record. -/
inductive UserInput where
  | str (s : String)
  | dict (d : PartialUser)
deriving DecidableEq

/-- The module parameters consumed by the reconcile pipeline. -/
structure Params where
  users : Option (List UserInput)
  username : Option String
  password : Option String
  nopassword : Option Bool
  update_password : String
  privilege : Option Int
  role : Option String
  sshkey : Option String
  purge : Bool
  state : String
deriving DecidableEq

def emptyPartial : PartialUser := ⟨none, none, none, none, none, none, none⟩

/-- The dict `{'username': s}`. -/
def bareUser (s : String) : PartialUser := { emptyPartial with username := some s }

/-- The `for item in collection` body of `map_params_to_obj`: every field is
filled in by `get_param_value`.  Only `privilege` has a validator; the
other keys cannot fail.  `username` is never passed through
`get_param_value` and is kept as supplied. -/
def normalizeItem (p : Params) (item : PartialUser) : Except String UserRecord := do
  let priv ← getParamPriv item.privilege p.privilege
  pure {
    username := item.username.getD "",
    password := getParamStr item.password p.password,
    nopassword := getParamBool item.nopassword p.nopassword,
    privilege := priv,
    role := getParamStr item.role p.role,
    sshkey := getParamStr item.sshkey p.sshkey,
    state := getParamState item.state p.state }

/-- Python `not module.params['users']`: `None` and `[]` are falsy. -/
def truthyUsers : Option (List UserInput) → Bool
  | none => false
  | some l => l ≠ []

/-- `map_params_to_obj(module)`. -/
def map_params_to_obj (p : Params) : Except String (List UserRecord) := do
  let collection : List PartialUser ←
    if ¬ truthyUsers p.users then
      if ¬ truthyStr p.username ∧ p.purge then pure []
      else if ¬ truthyStr p.username then .error "username is required"
      else pure [bareUser (p.username.getD "")]
    else
      (p.users.getD []).mapM (fun it =>
        match it with
        | .str s => pure (bareUser s)
        | .dict d =>
          if d.username = none then .error "username is required" else pure d)
  collection.mapM (normalizeItem p)

/-! ## `main()`: purge resolution and the admin safety check -/

/-- The purge loop of `main()`:
`for item in set(have_users).difference(want_users): if item != 'admin':
commands.append('no username %s' % item)`. -/
def purgeCommands (want hav : List UserRecord) : List String :=
  (((dedupFirst (hav.map (fun r => r.username))).filter
      (fun u => !(want.map (fun r => r.username)).contains u)).filter
      (fun u => u ≠ "admin")).map (fun u => "no username " ++ u)

/-- The full command list assembled by `main()` before the admin check. -/
def mainCommands (p : Params) (want hav : List UserRecord) : List String :=
  map_obj_to_commands p.update_password (update_objects want hav) ++
    (if p.purge then purgeCommands want hav else [])

/-- `main()` up to and including the commit decision: the result pair is the
rendered command list together with the flag telling whether `load_config`
(the committing collaborator) is invoked.  `module.fail_json` is
`Except.error`; the admin check runs before any commit. -/
def mainRun (p : Params) (deviceConfig : String) (checkMode : Bool) :
    Except String (List String × Bool) :=
  match map_params_to_obj p with
  | .error e => .error e
  | .ok want =>
    match map_config_to_obj deviceConfig with
    | .error e => .error e
    | .ok hav =>
      let commands := mainCommands p want hav
      if commands.contains "no username admin" then
        .error "cannot delete the `admin` account"
      else
        .ok (commands, commands ≠ [] && !checkMode)

/-! ## Helper lemmas -/

lemma addCmd_inj {u x y : String} (h : addCmd u x = addCmd u y) : x = y := by
  have hd := congrArg String.data h
  simp only [addCmd, String.data_append] at hd
  apply String.ext
  simpa using hd

lemma secret_ne_role (p r : String) : ("secret " ++ p : String) ≠ "role " ++ r := by
  intro h
  have hd := congrArg String.data h
  rw [String.data_append, String.data_append] at hd
  simp at hd

lemma secret_ne_priv (p r : String) : ("secret " ++ p : String) ≠ "privilege " ++ r := by
  intro h
  have hd := congrArg String.data h
  rw [String.data_append, String.data_append] at hd
  simp at hd

lemma secret_ne_sshkey (p r : String) : ("secret " ++ p : String) ≠ "sshkey " ++ r := by
  intro h
  have hd := congrArg String.data h
  rw [String.data_append, String.data_append] at hd
  simp at hd

lemma secret_ne_nop (p : String) : ("secret " ++ p : String) ≠ "nopassword" := by
  intro h
  have hd := congrArg String.data h
  rw [String.data_append] at hd
  simp at hd

lemma addSecret_ne_noUser (u pw v : String) :
    addCmd u ("secret " ++ pw) ≠ "no username " ++ v ++ " nopassword" := by
  intro h
  have hd := congrArg String.data h
  simp only [addCmd, String.data_append] at hd
  simp at hd

lemma secret_notin_roleCmds (w : UserRecord) (ho : Option UserRecord) (pw : String) :
    addCmd w.username ("secret " ++ pw) ∉ roleCmds w ho := by
  unfold roleCmds
  split
  · intro hmem
    exact secret_ne_role pw _ (addCmd_inj (List.mem_singleton.mp hmem))
  · exact List.not_mem_nil _

lemma secret_notin_privCmds (w : UserRecord) (ho : Option UserRecord) (pw : String) :
    addCmd w.username ("secret " ++ pw) ∉ privCmds w ho := by
  unfold privCmds
  split
  · intro hmem
    exact secret_ne_priv pw _ (addCmd_inj (List.mem_singleton.mp hmem))
  · exact List.not_mem_nil _

lemma secret_notin_sshCmds (w : UserRecord) (ho : Option UserRecord) (pw : String) :
    addCmd w.username ("secret " ++ pw) ∉ sshCmds w ho := by
  unfold sshCmds
  split
  · intro hmem
    exact secret_ne_sshkey pw _ (addCmd_inj (List.mem_singleton.mp hmem))
  · exact List.not_mem_nil _

lemma secret_notin_nopCmds (w : UserRecord) (ho : Option UserRecord) (pw : String) :
    addCmd w.username ("secret " ++ pw) ∉ nopCmds w ho := by
  unfold nopCmds
  split
  · split
    · intro hmem
      exact secret_ne_nop pw (addCmd_inj (List.mem_singleton.mp hmem))
    · intro hmem
      exact addSecret_ne_noUser w.username pw w.username (List.mem_singleton.mp hmem)
  · exact List.not_mem_nil _

/-- The number of keys of `entry` whose value is truthy and differs from
`item`'s: the number of `updates.append` calls `update_objects` performs
for a matched entry. -/
def diffCount (entry item : UserRecord) : Nat :=
  (fieldList.filter (diffPred entry item)).length

lemma count_flatten_replicate (k : Nat) (l : List String) (c : String) :
    ((List.replicate k l).flatten).count c = k * l.count c := by
  induction k with
  | zero => simp
  | succ n ih =>
    rw [List.replicate_succ, List.flatten_cons, List.count_append, ih, Nat.succ_mul]
    ring

/-! ## Claims C2, C5, C6, C7 -/

/-- Claim C2 counterexample: a want record with `state=absent` and no
matching have record produces no update pair and hence no removal command,
refuting the claim that a removal command is emitted regardless of whether
a have record exists. -/
theorem claim_C2_cex :
    update_objects [⟨"bob", none, none, none, none, none, "absent"⟩] [] = [] ∧
    map_obj_to_commands "always"
      (update_objects [⟨"bob", none, none, none, none, none, "absent"⟩] []) = [] :=
  ⟨rfl, rfl⟩

/-- Claim C2 (amended): a want record with `state=absent` yields a removal
command for its username exactly when a have record with that username
exists: with no matching have record the rendered command list is empty,
and with a matching (parsed, hence `state=present`) have record the removal
command is emitted. -/
theorem claim_C2 (pol : String) (entry : UserRecord) (hav : List UserRecord)
    (habs : entry.state = "absent") :
    (findHave hav entry.username = none →
      map_obj_to_commands pol (updateOne entry hav) = []) ∧
    (∀ item, findHave hav entry.username = some item → item.state = "present" →
      ("no username " ++ entry.username) ∈ map_obj_to_commands pol (updateOne entry hav)) := by
  constructor
  · intro hnone
    simp [map_obj_to_commands, updateOne, hnone, habs]
  · intro item hfind hpres
    have hmem : Field.state ∈ fieldList.filter (diffPred entry item) := by
      simp [fieldList, diffPred, fieldTruthy, fieldEq, habs, hpres]
    have hpair : (entry, some item) ∈ updateOne entry hav := by
      rw [updateOne, hfind]
      exact List.mem_map_of_mem _ hmem
    rw [map_obj_to_commands]
    exact List.mem_flatMap.mpr ⟨(entry, some item), hpair, by simp [renderOne, habs]⟩

/-- Claim C2 witness: applying the amended claim to an absent want record
that matches an existing have record. -/
theorem claim_C2_witness :
    ("no username " ++ "bob") ∈ map_obj_to_commands "always"
      (updateOne ⟨"bob", none, none, none, none, none, "absent"⟩
        [⟨"bob", none, some false, none, none, none, "present"⟩]) :=
  (claim_C2 "always" ⟨"bob", none, none, none, none, none, "absent"⟩
      [⟨"bob", none, some false, none, none, none, "present"⟩] rfl).2
    ⟨"bob", none, some false, none, none, none, "present"⟩ rfl rfl

/-- Claim C5: for a want record with a set password whose username matches
an existing have record (whose parsed password is null), the renderer emits
the secret command iff `update_password` is `'always'`; against the empty
have dict (a brand-new account) the secret command is emitted under any
policy. -/
theorem claim_C5 (pol : String) (w item : UserRecord) (pw : String)
    (hst : w.state = "present") (hpw : w.password = some pw) (hne : pw ≠ "")
    (hip : item.password = none) :
    (addCmd w.username ("secret " ++ pw) ∈ renderOne pol (w, some item) ↔ pol = "always") ∧
    addCmd w.username ("secret " ++ pw) ∈ renderOne pol (w, none) := by
  have habs : (w.state == "absent") = false := by rw [hst]; rfl
  have h1 := secret_notin_roleCmds w (some item) pw
  have h2 := secret_notin_privCmds w (some item) pw
  have h4 := secret_notin_sshCmds w (some item) pw
  have h5 := secret_notin_nopCmds w (some item) pw
  constructor
  · by_cases hp : pol = "always"
    · simp [renderOne, habs, List.mem_append, h1, h2, h4, h5, pwCmds, hpw, hip,
        hne, truthyStr, hPassword, hp]
    · simp [renderOne, habs, List.mem_append, h1, h2, h4, h5, pwCmds, hpw, hip,
        hne, truthyStr, hPassword, hp]
  · simp [renderOne, habs, List.mem_append, pwCmds, hpw, hne, truthyStr, hPassword]

/-- Claim C5 witness: with policy `on_create` and an existing account the
secret command is absent; against the empty have dict it is present. -/
theorem claim_C5_witness :
    ((addCmd "bob" ("secret " ++ "pw") ∈
        renderOne "on_create" (⟨"bob", some "pw", none, none, none, none, "present"⟩,
          some ⟨"bob", none, some false, none, none, none, "present"⟩) ↔
      ("on_create" : String) = "always") ∧
    addCmd "bob" ("secret " ++ "pw") ∈
      renderOne "on_create" (⟨"bob", some "pw", none, none, none, none, "present"⟩, none)) :=
  claim_C5 "on_create" ⟨"bob", some "pw", none, none, none, none, "present"⟩
    ⟨"bob", none, some false, none, none, none, "present"⟩ "pw" rfl rfl (by decide) rfl

/-- Claim C6 counterexample: the integer privilege value `0` lies outside
`[1,15]` yet normalization does not fail: `0` is falsy in Python, so
`get_param_value` replaces it with the (unset) module default and the
validator never runs. -/
theorem claim_C6_cex :
    ¬ (1 ≤ (0 : Int) ∧ (0 : Int) ≤ 15) ∧ getParamPriv (some 0) none = .ok none :=
  ⟨by decide, rfl⟩

/-- Claim C6 (amended): every truthy (nonzero) integer privilege outside
`[1,15]` makes normalization fail with a fatal error naming the value
(`0` instead is falsy and is silently replaced by the module default);
every integer inside `[1,15]` passes validation unchanged and round-trips
verbatim into the rendered `privilege <level>` command. -/
theorem claim_C6 (v : Int) (d : Option Int) :
    (v ≠ 0 → ¬ (1 ≤ v ∧ v ≤ 15) →
      getParamPriv (some v) d =
        .error ("privilege must be between 1 and 15, got " ++ toString v)) ∧
    (1 ≤ v → v ≤ 15 →
      getParamPriv (some v) d = .ok (some v) ∧
      ∀ u pol, renderOne pol (⟨u, none, none, some v, none, none, "present"⟩, none) =
        [addCmd u ("privilege " ++ toString v)]) := by
  constructor
  · intro hv hrange
    simp [getParamPriv, truthyInt, hv, validate_privilege, hrange]
  · intro h1 h15
    have hv : v ≠ 0 := by omega
    constructor
    · simp [getParamPriv, truthyInt, hv, validate_privilege, h1, h15]
    · intro u pol
      simp [renderOne, roleCmds, privCmds, pwCmds, sshCmds, nopCmds, truthyStr,
        truthyInt, truthyBool, hv, hPriv]

/-- Claim C6 witness: privilege 16 fails naming the value; privilege 7
succeeds and appears verbatim in the rendered command. -/
theorem claim_C6_witness :
    (getParamPriv (some 16) none =
      .error ("privilege must be between 1 and 15, got " ++ toString (16 : Int))) ∧
    (getParamPriv (some 7) none = .ok (some 7) ∧
      renderOne "always" (⟨"bob", none, none, some 7, none, none, "present"⟩, none) =
        [addCmd "bob" ("privilege " ++ toString (7 : Int))]) :=
  ⟨(claim_C6 16 none).1 (by decide) (by decide),
   ((claim_C6 7 none).2 (by decide) (by decide)).1,
   ((claim_C6 7 none).2 (by decide) (by decide)).2 "bob" "always"⟩

/-- Claim C7: a present want record matching a have record with exactly `k`
truthy differing keys contributes exactly `k` identical `(want, have)`
pairs, and the rendered output is the `k`-fold repetition of the per-pair
command list, so every needed command appears `k` times, undeduplicated. -/
theorem claim_C7 (pol : String) (entry item : UserRecord) (hav : List UserRecord) (k : Nat)
    (_hst : entry.state = "present") (hfind : findHave hav entry.username = some item)
    (hk : diffCount entry item = k) :
    updateOne entry hav = List.replicate k (entry, some item) ∧
    map_obj_to_commands pol (updateOne entry hav) =
      (List.replicate k (renderOne pol (entry, some item))).flatten ∧
    ∀ c, (map_obj_to_commands pol (updateOne entry hav)).count c =
      k * (renderOne pol (entry, some item)).count c := by
  have h1 : updateOne entry hav = List.replicate k (entry, some item) := by
    simp only [updateOne, hfind, List.map_const']
    rw [show (fieldList.filter (diffPred entry item)).length = k from hk]
  have h2 : map_obj_to_commands pol (updateOne entry hav) =
      (List.replicate k (renderOne pol (entry, some item))).flatten := by
    rw [map_obj_to_commands, h1, List.flatMap_def, List.map_replicate]
  exact ⟨h1, h2, fun c => by rw [h2, count_flatten_replicate]⟩

/-- Claim C7 witness: a record differing from its have record in role and
sshkey (`k = 2`) yields two identical pairs and each command twice. -/
theorem claim_C7_witness :
    diffCount ⟨"bob", none, none, none, some "ops", some "K1", "present"⟩
        ⟨"bob", none, some false, none, some "old", some "K0", "present"⟩ = 2 ∧
    updateOne ⟨"bob", none, none, none, some "ops", some "K1", "present"⟩
        [⟨"bob", none, some false, none, some "old", some "K0", "present"⟩] =
      List.replicate 2 (⟨"bob", none, none, none, some "ops", some "K1", "present"⟩,
        some ⟨"bob", none, some false, none, some "old", some "K0", "present"⟩) ∧
    (map_obj_to_commands "always"
        (updateOne ⟨"bob", none, none, none, some "ops", some "K1", "present"⟩
          [⟨"bob", none, some false, none, some "old", some "K0", "present"⟩])).count
        (addCmd "bob" ("role " ++ "ops")) =
      2 * (renderOne "always" (⟨"bob", none, none, none, some "ops", some "K1", "present"⟩,
        some ⟨"bob", none, some false, none, some "old", some "K0", "present"⟩)).count
        (addCmd "bob" ("role " ++ "ops")) :=
  ⟨rfl,
   (claim_C7 "always" ⟨"bob", none, none, none, some "ops", some "K1", "present"⟩
      ⟨"bob", none, some false, none, some "old", some "K0", "present"⟩
      [⟨"bob", none, some false, none, some "old", some "K0", "present"⟩] 2 rfl rfl rfl).1,
   (claim_C7 "always" ⟨"bob", none, none, none, some "ops", some "K1", "present"⟩
      ⟨"bob", none, some false, none, some "old", some "K0", "present"⟩
      [⟨"bob", none, some false, none, some "old", some "K0", "present"⟩] 2 rfl rfl rfl).2.2 _⟩

/-! ## Claims C8 and C9 (input normalization) -/

/-- Claim C8: with neither the single-username form nor the list form
supplied (both falsy), `map_params_to_obj` fails with
`'username is required'` when purge is disabled and returns the empty want
list when purge is enabled. -/
theorem claim_C8 (p : Params) (hu : truthyUsers p.users = false)
    (hn : truthyStr p.username = false) :
    (p.purge = true → map_params_to_obj p = .ok []) ∧
    (p.purge = false → map_params_to_obj p = .error "username is required") := by
  constructor
  · intro hp
    simp [map_params_to_obj, hu, hn, hp]
    rfl
  · intro hp
    simp [map_params_to_obj, hu, hn, hp]
    rfl

/-- Claim C8 witness: empty input with purge on and purge off. -/
theorem claim_C8_witness :
    map_params_to_obj ⟨none, none, none, none, "always", none, none, none, true, "present"⟩ =
      .ok [] ∧
    map_params_to_obj ⟨none, none, none, none, "always", none, none, none, false, "present"⟩ =
      .error "username is required" :=
  ⟨(claim_C8 ⟨none, none, none, none, "always", none, none, none, true, "present"⟩
      rfl rfl).1 rfl,
   (claim_C8 ⟨none, none, none, none, "always", none, none, none, false, "present"⟩
      rfl rfl).2 rfl⟩

@[simp] lemma truthyInt_none : truthyInt none = false := rfl

@[simp] lemma truthyInt_some (n : Int) : truthyInt (some n) = decide (n ≠ 0) := rfl

@[simp] lemma truthyStr_none : truthyStr none = false := rfl

@[simp] lemma truthyBool_none : truthyBool none = false := rfl

/-- Claim C9: a falsy explicit field value is replaced by the module-wide
default during normalization (so the type check of the else-branch is
skipped; in this typed embedding that branch simply keeps the item value),
the privilege validator runs only on a truthy resulting value, and in
particular an explicit privilege of `0` passes normalization without the
out-of-range error whenever the module default is itself falsy. -/
theorem claim_C9 :
    (∀ (iv d : Option Int), truthyInt iv = false → getParamPriv iv d = getParamPriv none d) ∧
    (∀ (iv d : Option String), truthyStr iv = false → getParamStr iv d = d) ∧
    (∀ (iv d : Option Bool), truthyBool iv = false → getParamBool iv d = d) ∧
    (∀ d : Option Int, truthyInt d = false → getParamPriv (some 0) d = .ok d) ∧
    getParamPriv (some 0) none = .ok none := by
  refine ⟨?_, ?_, ?_, ?_, rfl⟩
  · intro iv d h
    simp [getParamPriv, h]
  · intro iv d h
    simp [getParamStr, h]
  · intro iv d h
    simp [getParamBool, h]
  · intro d h
    simp [getParamPriv, h]
    rfl

/-- Claim C9 witness: explicit falsy values (`0`, `""`, `false`) fall back
to the default and raise no validation error. -/
theorem claim_C9_witness :
    getParamPriv (some 0) none = .ok none ∧
    getParamStr (some "") (some "dflt") = some "dflt" ∧
    getParamBool (some false) (some true) = some true ∧
    getParamPriv (some 0) (some 0) = .ok (some 0) :=
  ⟨claim_C9.2.2.2.2, claim_C9.2.1 (some "") (some "dflt") rfl,
   claim_C9.2.2.1 (some false) (some true) rfl, claim_C9.2.2.2.1 (some 0) rfl⟩

/-! ## Claims C4 and C10 (record parser) -/

lemma mapM_ok_mem {α β : Type} (f : α → Except String β) :
    ∀ (l : List α) (out : List β), l.mapM f = .ok out →
      ∀ b ∈ out, ∃ a ∈ l, f a = .ok b := by
  intro l
  induction l with
  | nil =>
    intro out h b hb
    rw [List.mapM_nil] at h
    cases h
    cases hb
  | cons a t ih =>
    intro out h b hb
    rw [List.mapM_cons] at h
    cases hfa : f a with
    | error e => rw [hfa] at h; cases h
    | ok b0 =>
      rw [hfa] at h
      cases hft : t.mapM f with
      | error e =>
        rw [hft] at h
        cases h
      | ok bs =>
        rw [hft] at h
        cases h
        rcases List.mem_cons.mp hb with rfl | hb2
        · exact ⟨a, List.mem_cons_self a t, hfa⟩
        · obtain ⟨x, hx, hfx⟩ := ih bs hft b hb2
          exact ⟨x, List.mem_cons_of_mem a hx, hfx⟩

lemma mapM_ok_of_all {α β : Type} (f : α → Except String β) :
    ∀ l : List α, (∀ a ∈ l, (f a).isOk = true) → ∃ out, l.mapM f = .ok out := by
  intro l
  induction l with
  | nil => exact fun _ => ⟨[], rfl⟩
  | cons a t ih =>
    intro h
    obtain ⟨b, hb⟩ : ∃ b, f a = .ok b := by
      cases hfa : f a with
      | error e =>
        have := h a (List.mem_cons_self a t)
        rw [hfa] at this
        cases this
      | ok b => exact ⟨b, rfl⟩
    obtain ⟨out, hout⟩ := ih (fun x hx => h x (List.mem_cons_of_mem a hx))
    refine ⟨b :: out, ?_⟩
    rw [List.mapM_cons, hb, hout]
    rfl

/-- `buildHave` succeeds exactly when its privilege parse does. -/
lemma buildHave_isOk {data u : String}
    (h : (parse_privilege (userCfg data u)).isOk = true) :
    (buildHave data u).isOk = true := by
  rw [buildHave]
  cases hp : parse_privilege (userCfg data u) with
  | error e => rw [hp] at h; cases h
  | ok priv => rfl

/-- Claim C4 counterexample: a non-integer token after the privilege
keyword makes `int()` raise, so the parser is not total. -/
theorem claim_C4_cex :
    map_config_to_obj "username bob privilege abc" =
      .error ("invalid literal for int() with base 10: " ++ "abc") := rfl

/-- The characters `re` treats specially.  The source interpolates the
extracted username unescaped into `r'username %s .+$'`, so a username
containing one of these can make `re.findall` itself raise `re.error`
(e.g. an unmatched parenthesis) or change which lines are collected;
`userCfg` models the pattern only for metacharacter-free tokens, for
which it is a literal.  `\x7b`/`\x7d` are the curly braces. -/
def pyRegexMeta (c : Char) : Bool :=
  c == '.' || c == '^' || c == '$' || c == '*' || c == '+' || c == '?' ||
  c == '[' || c == ']' || c == '\\' || c == '|' || c == '(' || c == ')' ||
  c == '\x7b' || c == '\x7d'

/-- A token that interpolates into a regex as a literal. -/
def plainToken (s : String) : Bool := s.data.all (fun c => !pyRegexMeta c)

lemma mapM_isOk_false {α β : Type} (f : α → Except String β) :
    ∀ l : List α, (∃ a ∈ l, (f a).isOk = false) → (l.mapM f).isOk = false := by
  intro l
  induction l with
  | nil =>
    rintro ⟨a, ha, _⟩
    cases ha
  | cons a t ih =>
    rintro ⟨b, hb, hfb⟩
    rw [List.mapM_cons]
    cases hfa : f a with
    | error e => rfl
    | ok b0 =>
      rcases List.mem_cons.mp hb with rfl | hb2
      · rw [hfa] at hfb
        cases hfb
      · have hrest := ih ⟨b, hb2, hfb⟩
        cases hmt : t.mapM f with
        | error e => rfl
        | ok bs =>
          rw [hmt] at hrest
          cases hrest

/-- `buildHave` fails exactly when its privilege parse does. -/
lemma buildHave_isOk_false {data u : String}
    (h : (parse_privilege (userCfg data u)).isOk = false) :
    (buildHave data u).isOk = false := by
  rw [buildHave]
  cases hp : parse_privilege (userCfg data u) with
  | error e => rfl
  | ok priv =>
    rw [hp] at h
    cases h

/-- Claim C4 (amended): the parser is not total.  An empty blob, or any
blob without account-declaration lines, yields the empty list; malformed
attribute lines yield unset fields (illustrated by a block with no
recognized attribute).  But a non-integer token after the privilege
keyword makes `int()` raise, and a username token containing a regex
metacharacter is interpolated unescaped into `r'username %s .+$'`, which
can itself raise `re.error` or alter block collection.  On blobs whose
extracted username tokens are all metacharacter-free — the domain this
embedding models faithfully — parsing succeeds if every parsed user's
block has an integer (or no) privilege token, and fails if some block has
a non-integer one. -/
theorem claim_C4 (data : String) :
    (map_config_to_obj "" = .ok []) ∧
    (usernameHits data = [] → map_config_to_obj data = .ok []) ∧
    ((∀ u ∈ dedupFirst (usernameHits data), plainToken u = true) →
      ((∀ u ∈ dedupFirst (usernameHits data),
          (parse_privilege (userCfg data u)).isOk = true) →
        ∃ l, map_config_to_obj data = .ok l) ∧
      ((∃ u ∈ dedupFirst (usernameHits data),
          (parse_privilege (userCfg data u)).isOk = false) →
        (map_config_to_obj data).isOk = false)) ∧
    map_config_to_obj "username bob foo" =
      .ok [⟨"bob", none, some false, none, none, none, "present"⟩] := by
  refine ⟨rfl, ?_, fun _ => ⟨?_, ?_⟩, rfl⟩
  · intro h
    rw [map_config_to_obj, h]
  · intro h
    rw [map_config_to_obj]
    cases hh : usernameHits data with
    | nil => exact ⟨[], rfl⟩
    | cons a t =>
      rw [hh] at h
      exact mapM_ok_of_all (buildHave data) (dedupFirst (a :: t))
        (fun u hu => buildHave_isOk (h u hu))
  · rintro ⟨u, hu, hfail⟩
    rw [map_config_to_obj]
    cases hh : usernameHits data with
    | nil =>
      rw [hh] at hu
      cases hu
    | cons a t =>
      rw [hh] at hu
      show ((dedupFirst (a :: t)).mapM (buildHave data)).isOk = false
      exact mapM_isOk_false (buildHave data) (dedupFirst (a :: t))
        ⟨u, hu, buildHave_isOk_false hfail⟩

/-- Claim C4 witness: a blob without declaration lines parses to the empty
list; a metacharacter-free blob with a good privilege token parses
successfully; one with a non-integer privilege token fails. -/
theorem claim_C4_witness :
    (usernameHits "interface Ethernet1" = [] ∧
      map_config_to_obj "interface Ethernet1" = .ok []) ∧
    ((∀ u ∈ dedupFirst (usernameHits "username bob role ops"), plainToken u = true) ∧
      ∃ l, map_config_to_obj "username bob role ops" = .ok l) ∧
    (map_config_to_obj "username bob privilege abc").isOk = false :=
  ⟨⟨rfl, (claim_C4 "interface Ethernet1").2.1 rfl⟩,
   ⟨by decide, ((claim_C4 "username bob role ops").2.2.1 (by decide)).1 (by decide)⟩,
   ((claim_C4 "username bob privilege abc").2.2.1 (by decide)).2
     ⟨"bob", by decide, by decide⟩⟩

/-- Unfolding `buildHave` when the privilege parse succeeds. -/
lemma buildHave_ok {data u : String} {r : UserRecord}
    (h : buildHave data u = .ok r) :
    r.username = u ∧
    r.nopassword = some (containsChars "nopassword".data (userCfg data u).data) := by
  rw [buildHave] at h
  cases hp : parse_privilege (userCfg data u) with
  | error e =>
    rw [hp] at h
    cases h
  | ok priv =>
    rw [hp] at h
    cases h
    exact ⟨rfl, rfl⟩

/-- Claim C10: nopassword detection is a substring test: every record the
parser returns carries `nopassword = true` iff the string `nopassword`
occurs anywhere in the joined configuration lines collected for that
username — including occurrences inside another field's value. -/
theorem claim_C10 (data : String) (l : List UserRecord) (r : UserRecord)
    (hok : map_config_to_obj data = .ok l) (hr : r ∈ l) :
    r.nopassword = some (containsChars "nopassword".data (userCfg data r.username).data) := by
  rw [map_config_to_obj] at hok
  cases hh : usernameHits data with
  | nil =>
    rw [hh] at hok
    cases hok
    cases hr
  | cons a t =>
    rw [hh] at hok
    obtain ⟨u, _, hbuild⟩ := mapM_ok_mem (buildHave data) (dedupFirst (a :: t)) l hok r hr
    obtain ⟨hname, hnop⟩ := buildHave_ok hbuild
    rw [hname]
    exact hnop

/-- Claim C10 witness: `nopassword` occurring inside a role value flips the
parsed flag to true even though no nopassword attribute is configured. -/
theorem claim_C10_witness :
    (⟨"bob", none, some true, none, some "xnopasswordy", none, "present"⟩ : UserRecord).nopassword =
      some (containsChars "nopassword".data
        (userCfg "username bob role xnopasswordy" "bob").data) :=
  claim_C10 "username bob role xnopasswordy"
    [⟨"bob", none, some true, none, some "xnopasswordy", none, "present"⟩]
    ⟨"bob", none, some true, none, some "xnopasswordy", none, "present"⟩
    rfl (List.mem_singleton.mpr rfl)

/-! ## Claim C1 (protected-account invariant) -/

lemma noUser_inj {u v : String} (h : ("no username " ++ u : String) = "no username " ++ v) :
    u = v := by
  have hd := congrArg String.data h
  rw [String.data_append, String.data_append] at hd
  apply String.ext
  simpa using hd

/-- Claim C1: the purge set-difference never emits the removal command for
the protected `admin` account, and whenever the rendered command list does
contain `no username admin` (however produced, e.g. via a want record with
state=absent), `main` fails with the fatal admin message and no commit
decision is reached. -/
theorem claim_C1 (p : Params) (deviceConfig : String) (checkMode : Bool) :
    (∀ want hav, "no username admin" ∉ purgeCommands want hav) ∧
    (∀ want hav,
      map_params_to_obj p = .ok want → map_config_to_obj deviceConfig = .ok hav →
      "no username admin" ∈ mainCommands p want hav →
      mainRun p deviceConfig checkMode = .error "cannot delete the `admin` account") := by
  constructor
  · intro want hav hmem
    rw [purgeCommands] at hmem
    obtain ⟨u, hu, hcmd⟩ := List.mem_map.mp hmem
    have hne := (List.mem_filter.mp hu).2
    have hadmin : u = "admin" :=
      noUser_inj (show ("no username " ++ u : String) = "no username " ++ "admin" from hcmd)
    simp [hadmin] at hne
  · intro want hav hwant hhav hmem
    have hc : (mainCommands p want hav).contains "no username admin" = true :=
      List.elem_iff.mpr hmem
    simp [mainRun, hwant, hhav, hc, hmem]

/-- Claim C1 witness: a want record `admin` with state=absent against a
config containing `admin` renders `no username admin` and `main` fails
before any commit. -/
theorem claim_C1_witness :
    ("no username admin" ∉ purgeCommands
        [⟨"alice", none, none, none, none, none, "present"⟩]
        [⟨"admin", none, some false, none, none, none, "present"⟩]) ∧
    mainRun ⟨some [.dict ⟨some "admin", none, none, none, none, none, some "absent"⟩],
        none, none, none, "always", none, none, none, false, "present"⟩
      "username admin privilege 15\nusername bob role ops" false =
      .error "cannot delete the `admin` account" :=
  ⟨(claim_C1 ⟨some [.dict ⟨some "admin", none, none, none, none, none, some "absent"⟩],
        none, none, none, "always", none, none, none, false, "present"⟩
      "username admin privilege 15\nusername bob role ops" false).1
      [⟨"alice", none, none, none, none, none, "present"⟩]
      [⟨"admin", none, some false, none, none, none, "present"⟩],
   (claim_C1 ⟨some [.dict ⟨some "admin", none, none, none, none, none, some "absent"⟩],
        none, none, none, "always", none, none, none, false, "present"⟩
      "username admin privilege 15\nusername bob role ops" false).2
      [⟨"admin", none, none, none, none, none, "absent"⟩]
      [⟨"admin", none, some false, some 15, none, none, "present"⟩,
       ⟨"bob", none, some false, none, some "ops", none, "present"⟩]
      rfl rfl (by decide)⟩

/-! ## Claim C3 (idempotence): device application model

The repository contains no device simulator: rendered commands go to the
`load_config` collaborator and the next invocation re-fetches and re-parses
the device configuration.  Spec §8 derives the second pass's "have" by
applying the first pass's commands to the first pass's "have" and
re-parsing, with passwords always parsing to null. -/

/-- `str.split(' ')` over characters (structural). -/
def splitSpace : List Char → List (List Char)
  | [] => [[]]
  | c :: t =>
    if c = ' ' then [] :: splitSpace t
    else
      match splitSpace t with
      | w :: ws => (c :: w) :: ws
      | [] => [[c]]

/-- `' '.join(l)`. -/
def joinSpaceStr : List String → String
  | [] => ""
  | [w] => w
  | w :: x :: t => w ++ " " ++ joinSpaceStr (x :: t)

/-- A freshly created account as `map_config_to_obj` would re-parse it:
present, no stored plaintext password, nopassword false, all else unset. -/
def newUser (u : String) : UserRecord :=
  ⟨u, none, some false, none, none, none, "present"⟩

/-- Update the record of username `u`, creating it when absent. -/
def upsert (st : List UserRecord) (u : String) (f : UserRecord → UserRecord) :
    List UserRecord :=
  if st.any (fun r => r.username == u) then
    st.map (fun r => if r.username == u then f r else r)
  else st ++ [f (newUser u)]

/-- Modelled from the spec: the effect of one rendered command (tokenized
on blanks) on the parsed device state.  `no username u` deletes the
account; attribute commands set the attribute (creating the account when
missing, as the EOS CLI does); a `secret` command changes only the stored
hash, which re-parses to null, so it touches no parsed field. -/
def applyCmdW (st : List UserRecord) : List String → List UserRecord
  | ["no", "username", u] => st.filter (fun r => r.username ≠ u)
  | ["no", "username", u, "nopassword"] =>
    st.map (fun r => if r.username == u then { r with nopassword := some false } else r)
  | ["username", u, "role", rl] => upsert st u (fun r => { r with role := some rl })
  | ["username", u, "privilege", n] => upsert st u (fun r => { r with privilege := pyInt n })
  | "username" :: u :: "secret" :: _ :: _ => upsert st u (fun r => r)
  | "username" :: u :: "sshkey" :: w :: ws =>
    upsert st u (fun r => { r with sshkey := some (joinSpaceStr (w :: ws)) })
  | ["username", u, "nopassword"] => upsert st u (fun r => { r with nopassword := some true })
  | _ => st

/-- Modelled from the spec: apply one command string. -/
def applyCmd (st : List UserRecord) (cmd : String) : List UserRecord :=
  applyCmdW st ((splitSpace cmd.data).map (fun w => String.mk w))

/-- Modelled from the spec: apply a command list left to right. -/
def applyCmds (cmds : List String) (st : List UserRecord) : List UserRecord :=
  cmds.foldl applyCmd st

/-- One reconcile pass: the diff engine feeding the renderer. -/
def reconcile (pol : String) (want hav : List UserRecord) : List String :=
  map_obj_to_commands pol (update_objects want hav)

/-- Claim C3 counterexample: under `update_password='always'` a want record
with a set password for an account that persists re-emits the secret
command on the second pass (the parsed password is always null), so the
second pass is not empty. -/
theorem claim_C3_cex :
    reconcile "always" [⟨"bob", some "pw", none, none, none, none, "present"⟩]
      (applyCmds
        (reconcile "always" [⟨"bob", some "pw", none, none, none, none, "present"⟩]
          [⟨"bob", none, some false, none, none, none, "present"⟩])
        [⟨"bob", none, some false, none, none, none, "present"⟩]) =
      [addCmd "bob" ("secret " ++ "pw")] ∧
    [addCmd "bob" ("secret " ++ "pw")] ≠ ([] : List String) :=
  ⟨rfl, by decide⟩

/-! ### Tokenizer lemmas -/

lemma splitSpace_ne_nil : ∀ l : List Char, splitSpace l ≠ []
  | [] => by simp [splitSpace]
  | c :: t => by
    simp only [splitSpace]
    split
    · simp
    · split
      · simp
      · simp

lemma splitSpace_nospace : ∀ l : List Char, (∀ c ∈ l, c ≠ ' ') → splitSpace l = [l]
  | [], _ => rfl
  | c :: t, h => by
    have hc : c ≠ ' ' := h c (List.mem_cons_self c t)
    have ih := splitSpace_nospace t (fun x hx => h x (List.mem_cons_of_mem c hx))
    simp only [splitSpace, if_neg hc, ih]

lemma splitSpace_append : ∀ xs ys : List Char, (∀ c ∈ xs, c ≠ ' ') →
    splitSpace (xs ++ ' ' :: ys) = xs :: splitSpace ys
  | [], ys, _ => by simp [splitSpace]
  | x :: xs, ys, h => by
    have hx : x ≠ ' ' := h x (List.mem_cons_self x xs)
    have ih := splitSpace_append xs ys (fun c hc => h c (List.mem_cons_of_mem x hc))
    simp only [List.cons_append, splitSpace, if_neg hx, List.append_eq, ih]

lemma mk_data (s : String) : String.mk s.data = s := by
  cases s
  rfl

lemma joinSpace_splitSpace : ∀ l : List Char,
    joinSpaceStr ((splitSpace l).map (fun w => String.mk w)) = String.mk l
  | [] => rfl
  | c :: t => by
    have ih := joinSpace_splitSpace t
    by_cases hc : c = ' '
    · subst hc
      simp only [splitSpace, if_pos rfl, List.map_cons]
      obtain ⟨w, ws, hw⟩ := List.exists_cons_of_ne_nil (splitSpace_ne_nil t)
      rw [hw] at ih ⊢
      simp only [List.map_cons, joinSpaceStr] at ih ⊢
      rw [ih]
      rfl
    · simp only [splitSpace, if_neg hc]
      obtain ⟨w, ws, hw⟩ := List.exists_cons_of_ne_nil (splitSpace_ne_nil t)
      rw [hw] at ih ⊢
      cases ws with
      | nil =>
        simp only [List.map_cons, List.map_nil, joinSpaceStr] at ih ⊢
        have hwt : w = t := congrArg String.data ih
        rw [hwt]
      | cons x xs =>
        simp only [List.map_cons, joinSpaceStr] at ih ⊢
        have hd := congrArg String.data ih
        simp only [String.data_append, List.append_assoc, List.singleton_append,
          List.nil_append] at hd
        apply String.ext
        simp only [String.data_append, List.cons_append, List.append_assoc,
          List.singleton_append, List.nil_append]
        rw [hd]

/-! ### Effect of each rendered command shape -/

/-- The username tokens handled here are blank-free (the EOS declaration
grammar guarantees it: usernames are `\S+` tokens). -/
def noSpace (s : String) : Prop := ∀ c ∈ s.data, c ≠ ' '

lemma addCmd_words (u x : String) (hu : noSpace u) :
    (splitSpace (addCmd u x).data).map (fun w => String.mk w) =
      "username" :: u :: (splitSpace x.data).map (fun w => String.mk w) := by
  have hd : (addCmd u x).data = "username".data ++ ' ' :: (u.data ++ ' ' :: x.data) := by
    show ("username " ++ u ++ " " ++ x).data = _
    rw [String.data_append, String.data_append, String.data_append]
    rw [show ("username " : String).data = "username".data ++ [' '] from rfl,
        show (" " : String).data = [' '] from rfl]
    simp [List.append_assoc]
  rw [hd, splitSpace_append _ _ (by decide), splitSpace_append _ _ hu]
  simp [mk_data]

lemma kw_words (kw : String) (hk : ∀ c ∈ kw.data, c ≠ ' ')
    (hd : ∀ y : String, (kw ++ " " ++ y).data = kw.data ++ ' ' :: y.data) :
    ∀ y : String, (splitSpace ((kw ++ " " ++ y)).data).map (fun w => String.mk w) =
      kw :: (splitSpace y.data).map (fun w => String.mk w) := by
  intro y
  rw [hd y, splitSpace_append _ _ hk]
  simp [mk_data]

lemma data_kw_blank (kw y : String) : (kw ++ " " ++ y).data = kw.data ++ ' ' :: y.data := by
  rw [String.data_append, String.data_append, show (" " : String).data = [' '] from rfl]
  simp [List.append_assoc]

lemma applyCmd_role (st : List UserRecord) (u rl : String) (hu : noSpace u)
    (hr : noSpace rl) :
    applyCmd st (addCmd u ("role " ++ rl)) =
      upsert st u (fun r => { r with role := some rl }) := by
  rw [applyCmd, addCmd_words u _ hu,
    show ("role " ++ rl : String) = "role" ++ " " ++ rl from rfl,
    kw_words "role" (by decide) (data_kw_blank "role") rl,
    splitSpace_nospace _ hr]
  rfl

lemma applyCmd_priv (st : List UserRecord) (u n : String) (hu : noSpace u)
    (hn : noSpace n) :
    applyCmd st (addCmd u ("privilege " ++ n)) =
      upsert st u (fun r => { r with privilege := pyInt n }) := by
  rw [applyCmd, addCmd_words u _ hu,
    show ("privilege " ++ n : String) = "privilege" ++ " " ++ n from rfl,
    kw_words "privilege" (by decide) (data_kw_blank "privilege") n,
    splitSpace_nospace _ hn]
  rfl

lemma applyCmd_secret (st : List UserRecord) (u p : String) (hu : noSpace u) :
    applyCmd st (addCmd u ("secret " ++ p)) = upsert st u (fun r => r) := by
  rw [applyCmd, addCmd_words u _ hu,
    show ("secret " ++ p : String) = "secret" ++ " " ++ p from rfl,
    kw_words "secret" (by decide) (data_kw_blank "secret") p]
  obtain ⟨w, ws, hw⟩ := List.exists_cons_of_ne_nil (splitSpace_ne_nil p.data)
  rw [hw, List.map_cons]
  rfl

lemma applyCmd_sshkey (st : List UserRecord) (u k : String) (hu : noSpace u) :
    applyCmd st (addCmd u ("sshkey " ++ k)) =
      upsert st u (fun r => { r with sshkey := some k }) := by
  rw [applyCmd, addCmd_words u _ hu,
    show ("sshkey " ++ k : String) = "sshkey" ++ " " ++ k from rfl,
    kw_words "sshkey" (by decide) (data_kw_blank "sshkey") k]
  obtain ⟨w, ws, hw⟩ := List.exists_cons_of_ne_nil (splitSpace_ne_nil k.data)
  have hjoin : joinSpaceStr (String.mk w :: ws.map (fun c => String.mk c)) = k := by
    rw [show String.mk w :: ws.map (fun c => String.mk c) =
        (w :: ws).map (fun c => String.mk c) from rfl, ← hw, joinSpace_splitSpace, mk_data]
  rw [hw, List.map_cons]
  show upsert st u (fun r => { r with
    sshkey := some (joinSpaceStr (String.mk w :: ws.map (fun c => String.mk c))) }) = _
  rw [hjoin]

lemma applyCmd_nop (st : List UserRecord) (u : String) (hu : noSpace u) :
    applyCmd st (addCmd u "nopassword") =
      upsert st u (fun r => { r with nopassword := some true }) := by
  rw [applyCmd, addCmd_words u _ hu, splitSpace_nospace _ (by decide)]
  rfl

lemma applyCmd_noUser (st : List UserRecord) (u : String) (hu : noSpace u) :
    applyCmd st ("no username " ++ u) = st.filter (fun r => r.username ≠ u) := by
  have hd : ("no username " ++ u).data = "no".data ++ ' ' :: ("username".data ++ ' ' :: u.data) := by
    rw [String.data_append,
      show ("no username " : String).data = "no".data ++ ' ' :: ("username".data ++ [' ']) from rfl]
    simp [List.append_assoc]
  rw [applyCmd, hd, splitSpace_append _ _ (by decide), splitSpace_append _ _ (by decide),
    splitSpace_nospace _ hu]
  simp only [List.map_cons, List.map_nil, mk_data]
  rfl

/-! ### State lookup under the device actions -/

lemma find?_cons_pos {α : Type} (p : α → Bool) (a : α) (l : List α) (h : p a = true) :
    List.find? p (a :: l) = some a := List.find?_cons_of_pos l h

lemma find?_cons_neg {α : Type} (p : α → Bool) (a : α) (l : List α) (h : ¬ p a = true) :
    List.find? p (a :: l) = List.find? p l := List.find?_cons_of_neg l h

lemma findHave_map_update (st : List UserRecord) (u : String) (f : UserRecord → UserRecord)
    (hf : ∀ r, (f r).username = r.username) :
    findHave (st.map (fun r => if r.username == u then f r else r)) u =
      (findHave st u).map f := by
  induction st with
  | nil => rfl
  | cons r t ih =>
    simp only [List.map_cons, findHave] at ih ⊢
    by_cases hr : (r.username == u) = true
    · rw [if_pos hr, find?_cons_pos (fun r => r.username == u) (f r) _ (by
        show ((f r).username == u) = true
        rw [hf]; exact hr), find?_cons_pos (fun r => r.username == u) r _ hr]
      rfl
    · rw [if_neg hr, find?_cons_neg (fun r => r.username == u) r _ hr,
        find?_cons_neg (fun r => r.username == u) r _ hr]
      exact ih

lemma findHave_map_update_other (st : List UserRecord) (u v : String)
    (f : UserRecord → UserRecord) (hf : ∀ r, (f r).username = r.username) (hv : v ≠ u) :
    findHave (st.map (fun r => if r.username == u then f r else r)) v = findHave st v := by
  induction st with
  | nil => rfl
  | cons r t ih =>
    simp only [List.map_cons, findHave] at ih ⊢
    by_cases hr : (r.username == u) = true
    · have hru : r.username = u := by simpa using hr
      have hrn : ¬ (r.username == v) = true := by
        simp only [beq_iff_eq, hru]
        exact fun h => hv h.symm
      rw [if_pos hr, find?_cons_neg (fun r => r.username == v) (f r) _ (by
        show ¬ ((f r).username == v) = true
        rw [hf]; exact hrn), find?_cons_neg (fun r => r.username == v) r _ hrn]
      exact ih
    · rw [if_neg hr]
      by_cases hrv : (r.username == v) = true
      · rw [find?_cons_pos (fun r => r.username == v) r _ hrv,
          find?_cons_pos (fun r => r.username == v) r _ hrv]
      · rw [find?_cons_neg (fun r => r.username == v) r _ hrv,
          find?_cons_neg (fun r => r.username == v) r _ hrv]
        exact ih

lemma any_eq_isSome (st : List UserRecord) (u : String) :
    (st.any (fun r => r.username == u)) = (findHave st u).isSome := by
  induction st with
  | nil => rfl
  | cons r t ih =>
    simp only [List.any_cons, findHave] at ih ⊢
    by_cases hr : (r.username == u) = true
    · rw [hr, find?_cons_pos (fun r => r.username == u) r _ hr]
      rfl
    · rw [find?_cons_neg (fun r => r.username == u) r _ hr,
        show (r.username == u) = false from Bool.not_eq_true _ |>.mp hr]
      simp only [Bool.false_or]
      exact ih

lemma findHave_upsert_self (st : List UserRecord) (u : String) (f : UserRecord → UserRecord)
    (hf : ∀ r, (f r).username = r.username) :
    findHave (upsert st u f) u = some (f ((findHave st u).getD (newUser u))) := by
  rw [upsert]
  by_cases ha : (st.any (fun r => r.username == u)) = true
  · rw [if_pos ha, findHave_map_update st u f hf]
    obtain ⟨r0, hr0⟩ := Option.isSome_iff_exists.mp (any_eq_isSome st u ▸ ha)
    rw [hr0]
    rfl
  · rw [if_neg ha]
    have hnone : findHave st u = none := by
      cases hfind : findHave st u with
      | none => rfl
      | some r =>
        exfalso
        apply ha
        rw [any_eq_isSome, hfind]
        rfl
    rw [show findHave (st ++ [f (newUser u)]) u =
        ((findHave st u).or (findHave [f (newUser u)] u)) from List.find?_append,
      hnone]
    have hbeq : ((f (newUser u)).username == u) = true := by
      rw [hf]
      simp [newUser]
    rw [show findHave [f (newUser u)] u = some (f (newUser u)) from
      find?_cons_pos (fun (r : UserRecord) => r.username == u) (f (newUser u)) [] hbeq]
    rfl

lemma findHave_upsert_other (st : List UserRecord) (u v : String)
    (f : UserRecord → UserRecord) (hf : ∀ r, (f r).username = r.username) (hv : v ≠ u) :
    findHave (upsert st u f) v = findHave st v := by
  rw [upsert]
  split
  · exact findHave_map_update_other st u v f hf hv
  · rw [show findHave (st ++ [f (newUser u)]) v =
        ((findHave st v).or (findHave [f (newUser u)] v)) from List.find?_append]
    have hbeq : ¬ ((f (newUser u)).username == v) = true := by
      rw [hf]
      simp only [newUser, beq_iff_eq]
      exact fun h => hv h.symm
    rw [show findHave [f (newUser u)] v = findHave [] v from
      find?_cons_neg (fun (r : UserRecord) => r.username == v) (f (newUser u)) [] hbeq]
    cases findHave st v <;> rfl

lemma findHave_filter_self (st : List UserRecord) (u : String) :
    findHave (st.filter (fun r => r.username ≠ u)) u = none := by
  induction st with
  | nil => rfl
  | cons r t ih =>
    simp only [List.filter_cons]
    by_cases hr : r.username = u
    · simp only [hr, findHave]
      rw [if_neg (by simp)]
      exact ih
    · rw [if_pos (by simpa using hr)]
      simp only [findHave] at ih ⊢
      rw [find?_cons_neg (fun r => r.username == u) r _ (by simpa using hr)]
      exact ih

lemma findHave_filter_other (st : List UserRecord) (u v : String) (hv : v ≠ u) :
    findHave (st.filter (fun r => r.username ≠ u)) v = findHave st v := by
  induction st with
  | nil => rfl
  | cons r t ih =>
    simp only [List.filter_cons, findHave] at ih ⊢
    by_cases hr : r.username = u
    · rw [if_neg (by simp [hr]), find?_cons_neg (fun r => r.username == v) r _ (by
        simp only [beq_iff_eq, hr]
        exact fun h => hv h.symm)]
      exact ih
    · rw [if_pos (by simpa using hr)]
      by_cases hrv : (r.username == v) = true
      · rw [find?_cons_pos (fun r => r.username == v) r _ hrv,
          find?_cons_pos (fun r => r.username == v) r _ hrv]
      · rw [find?_cons_neg (fun r => r.username == v) r _ hrv,
          find?_cons_neg (fun r => r.username == v) r _ hrv]
        exact ih

/-- The username a tokenized command acts on, when it acts at all. -/
def cmdTarget : List String → Option String
  | "no" :: "username" :: u :: _ => some u
  | "username" :: u :: _ :: _ => some u
  | _ => none

lemma applyCmdW_preserves (st : List UserRecord) (ws : List String) (v : String)
    (h : ∀ u, cmdTarget ws = some u → v ≠ u) :
    findHave (applyCmdW st ws) v = findHave st v := by
  unfold applyCmdW
  split
  · exact findHave_filter_other st _ v (h _ rfl)
  · exact findHave_map_update_other st _ v _ (fun r => rfl) (h _ rfl)
  · exact findHave_upsert_other st _ v _ (fun r => rfl) (h _ rfl)
  · exact findHave_upsert_other st _ v _ (fun r => rfl) (h _ rfl)
  · exact findHave_upsert_other st _ v _ (fun r => rfl) (h _ rfl)
  · exact findHave_upsert_other st _ v _ (fun r => rfl) (h _ rfl)
  · exact findHave_upsert_other st _ v _ (fun r => rfl) (h _ rfl)
  · rfl

/-! ### The per-pair command block as a function of the target record -/

def condRole (e : UserRecord) (ho : Option UserRecord) : Bool :=
  truthyStr e.role && (e.role ≠ hRole ho)

def condPriv (e : UserRecord) (ho : Option UserRecord) : Bool :=
  truthyInt e.privilege && (e.privilege ≠ hPriv ho)

def condPw (pol : String) (e : UserRecord) (ho : Option UserRecord) : Bool :=
  (truthyStr e.password && (e.password ≠ hPassword ho)) && (pol == "always" || ho.isNone)

def condSsh (e : UserRecord) (ho : Option UserRecord) : Bool :=
  truthyStr e.sshkey && (e.sshkey ≠ hSshkey ho)

def condNop (e : UserRecord) (ho : Option UserRecord) : Bool :=
  truthyBool e.nopassword && (e.nopassword ≠ hNop ho)

lemma roleCmds_eq (e : UserRecord) (ho : Option UserRecord) :
    roleCmds e ho =
      if condRole e ho then [addCmd e.username ("role " ++ e.role.getD "")] else [] := rfl

lemma privCmds_eq (e : UserRecord) (ho : Option UserRecord) :
    privCmds e ho =
      if condPriv e ho then
        [addCmd e.username ("privilege " ++ toString (e.privilege.getD 0))]
      else [] := rfl

lemma pwCmds_eq (pol : String) (e : UserRecord) (ho : Option UserRecord) :
    pwCmds pol e ho =
      if condPw pol e ho then [addCmd e.username ("secret " ++ e.password.getD "")]
      else [] := by
  unfold pwCmds condPw
  by_cases hA : (truthyStr e.password && (e.password ≠ hPassword ho)) = true <;>
    by_cases hB : (pol == "always" || ho.isNone) = true <;> simp [hA, hB]

lemma sshCmds_eq (e : UserRecord) (ho : Option UserRecord) :
    sshCmds e ho =
      if condSsh e ho then [addCmd e.username ("sshkey " ++ e.sshkey.getD "")] else [] := rfl

lemma nopCmds_eq (e : UserRecord) (ho : Option UserRecord) :
    nopCmds e ho = if condNop e ho then [addCmd e.username "nopassword"] else [] := by
  unfold nopCmds condNop
  by_cases hA : truthyBool e.nopassword = true
  · simp [hA]
  · simp [hA]

def segRole (e : UserRecord) (ho x : Option UserRecord) : Option UserRecord :=
  if condRole e ho then
    some { x.getD (newUser e.username) with role := some (e.role.getD "") }
  else x

def segPriv (e : UserRecord) (ho x : Option UserRecord) : Option UserRecord :=
  if condPriv e ho then
    some { x.getD (newUser e.username) with
      privilege := pyInt (toString (e.privilege.getD 0)) }
  else x

def segPw (pol : String) (e : UserRecord) (ho x : Option UserRecord) : Option UserRecord :=
  if condPw pol e ho then some (x.getD (newUser e.username)) else x

def segSsh (e : UserRecord) (ho x : Option UserRecord) : Option UserRecord :=
  if condSsh e ho then
    some { x.getD (newUser e.username) with sshkey := some (e.sshkey.getD "") }
  else x

def segNop (e : UserRecord) (ho x : Option UserRecord) : Option UserRecord :=
  if condNop e ho then
    some { x.getD (newUser e.username) with nopassword := some true }
  else x

lemma applyCmds_roleCmds (e : UserRecord) (ho : Option UserRecord) (st : List UserRecord)
    (hu : noSpace e.username) (hrole : condRole e ho = true → noSpace (e.role.getD "")) :
    findHave (applyCmds (roleCmds e ho) st) e.username = segRole e ho (findHave st e.username) := by
  by_cases hc : condRole e ho = true
  · rw [roleCmds_eq, if_pos hc]
    show findHave (applyCmd st (addCmd e.username ("role " ++ e.role.getD ""))) e.username = _
    rw [applyCmd_role st _ _ hu (hrole hc),
      findHave_upsert_self st e.username
        (fun r => { r with role := some (e.role.getD "") }) (fun r => rfl),
      segRole, if_pos hc]
  · rw [roleCmds_eq, if_neg hc, segRole, if_neg hc]
    rfl

lemma applyCmds_privCmds (e : UserRecord) (ho : Option UserRecord) (st : List UserRecord)
    (hu : noSpace e.username)
    (hpriv : condPriv e ho = true → noSpace (toString (e.privilege.getD 0))) :
    findHave (applyCmds (privCmds e ho) st) e.username = segPriv e ho (findHave st e.username) := by
  by_cases hc : condPriv e ho = true
  · rw [privCmds_eq, if_pos hc]
    show findHave
      (applyCmd st (addCmd e.username ("privilege " ++ toString (e.privilege.getD 0))))
      e.username = _
    rw [applyCmd_priv st _ _ hu (hpriv hc),
      findHave_upsert_self st e.username
        (fun r => { r with privilege := pyInt (toString (e.privilege.getD 0)) })
        (fun r => rfl),
      segPriv, if_pos hc]
  · rw [privCmds_eq, if_neg hc, segPriv, if_neg hc]
    rfl

lemma applyCmds_pwCmds (pol : String) (e : UserRecord) (ho : Option UserRecord)
    (st : List UserRecord) (hu : noSpace e.username) :
    findHave (applyCmds (pwCmds pol e ho) st) e.username =
      segPw pol e ho (findHave st e.username) := by
  by_cases hc : condPw pol e ho = true
  · rw [pwCmds_eq, if_pos hc]
    show findHave (applyCmd st (addCmd e.username ("secret " ++ e.password.getD "")))
      e.username = _
    rw [applyCmd_secret st _ _ hu, findHave_upsert_self st _ _ (fun r => rfl),
      segPw, if_pos hc]
  · rw [pwCmds_eq, if_neg hc, segPw, if_neg hc]
    rfl

lemma applyCmds_sshCmds (e : UserRecord) (ho : Option UserRecord) (st : List UserRecord)
    (hu : noSpace e.username) :
    findHave (applyCmds (sshCmds e ho) st) e.username = segSsh e ho (findHave st e.username) := by
  by_cases hc : condSsh e ho = true
  · rw [sshCmds_eq, if_pos hc]
    show findHave (applyCmd st (addCmd e.username ("sshkey " ++ e.sshkey.getD "")))
      e.username = _
    rw [applyCmd_sshkey st _ _ hu,
      findHave_upsert_self st e.username
        (fun r => { r with sshkey := some (e.sshkey.getD "") }) (fun r => rfl),
      segSsh, if_pos hc]
  · rw [sshCmds_eq, if_neg hc, segSsh, if_neg hc]
    rfl

lemma applyCmds_nopCmds (e : UserRecord) (ho : Option UserRecord) (st : List UserRecord)
    (hu : noSpace e.username) :
    findHave (applyCmds (nopCmds e ho) st) e.username = segNop e ho (findHave st e.username) := by
  by_cases hc : condNop e ho = true
  · rw [nopCmds_eq, if_pos hc]
    show findHave (applyCmd st (addCmd e.username "nopassword")) e.username = _
    rw [applyCmd_nop st _ hu,
      findHave_upsert_self st e.username
        (fun r => { r with nopassword := some true }) (fun r => rfl),
      segNop, if_pos hc]
  · rw [nopCmds_eq, if_neg hc, segNop, if_neg hc]
    rfl

def blockTouches (pol : String) (e : UserRecord) (ho : Option UserRecord) : Bool :=
  condRole e ho || condPriv e ho || condPw pol e ho || condSsh e ho || condNop e ho

/-- The parsed record of `e.username` after one command block, given the
record it starts from. -/
def blockUpd (e : UserRecord) (ho : Option UserRecord) (r : UserRecord) : UserRecord :=
  { r with
    role := if condRole e ho then some (e.role.getD "") else r.role,
    privilege :=
      if condPriv e ho then pyInt (toString (e.privilege.getD 0)) else r.privilege,
    sshkey := if condSsh e ho then some (e.sshkey.getD "") else r.sshkey,
    nopassword := if condNop e ho then some true else r.nopassword }

/-- The effect of one rendered pair block on the looked-up record. -/
def blockF (pol : String) (e : UserRecord) (ho x : Option UserRecord) : Option UserRecord :=
  if e.state == "absent" then none
  else if blockTouches pol e ho then
    some (blockUpd e ho (x.getD (newUser e.username)))
  else x

lemma seg_comp (pol : String) (e : UserRecord) (ho x : Option UserRecord) :
    segNop e ho (segSsh e ho (segPw pol e ho (segPriv e ho (segRole e ho x)))) =
      (if blockTouches pol e ho then
        some (blockUpd e ho (x.getD (newUser e.username)))
      else x) := by
  rcases hb : x.getD (newUser e.username) with ⟨a1, a2, a3, a4, a5, a6, a7⟩
  by_cases h1 : condRole e ho = true <;> by_cases h2 : condPriv e ho = true <;>
    by_cases h3 : condPw pol e ho = true <;> by_cases h4 : condSsh e ho = true <;>
    by_cases h5 : condNop e ho = true <;>
    simp [segRole, segPriv, segPw, segSsh, segNop, blockTouches, blockUpd,
      h1, h2, h3, h4, h5, hb]

lemma applyCmds_append (a b : List String) (st : List UserRecord) :
    applyCmds (a ++ b) st = applyCmds b (applyCmds a st) :=
  List.foldl_append _ _ _ _

lemma findHave_applyCmds_block (pol : String) (e : UserRecord) (ho : Option UserRecord)
    (st : List UserRecord) (hu : noSpace e.username)
    (hrole : condRole e ho = true → noSpace (e.role.getD ""))
    (hpriv : condPriv e ho = true → noSpace (toString (e.privilege.getD 0))) :
    findHave (applyCmds (renderOne pol (e, ho)) st) e.username =
      blockF pol e ho (findHave st e.username) := by
  by_cases habs : (e.state == "absent") = true
  · rw [show renderOne pol (e, ho) = ["no username " ++ e.username] from by
      rw [renderOne, if_pos habs]]
    show findHave (applyCmd st ("no username " ++ e.username)) e.username = _
    rw [applyCmd_noUser st _ hu, findHave_filter_self, blockF, if_pos habs]
  · rw [show renderOne pol (e, ho) = roleCmds e ho ++ privCmds e ho ++ pwCmds pol e ho ++
        sshCmds e ho ++ nopCmds e ho from by rw [renderOne, if_neg habs]]
    rw [applyCmds_append, applyCmds_append, applyCmds_append, applyCmds_append]
    rw [applyCmds_nopCmds e ho _ hu, applyCmds_sshCmds e ho _ hu, applyCmds_pwCmds pol e ho _ hu,
      applyCmds_privCmds e ho _ hu hpriv, applyCmds_roleCmds e ho _ hu hrole]
    rw [seg_comp, blockF, if_neg habs]

lemma blockUpd_idem (e : UserRecord) (ho : Option UserRecord) (r : UserRecord) :
    blockUpd e ho (blockUpd e ho r) = blockUpd e ho r := by
  rcases r with ⟨a1, a2, a3, a4, a5, a6, a7⟩
  by_cases h1 : condRole e ho = true <;> by_cases h2 : condPriv e ho = true <;>
    by_cases h4 : condSsh e ho = true <;> by_cases h5 : condNop e ho = true <;>
    simp [blockUpd, h1, h2, h4, h5]

lemma blockF_idem (pol : String) (e : UserRecord) (ho x : Option UserRecord) :
    blockF pol e ho (blockF pol e ho x) = blockF pol e ho x := by
  by_cases habs : (e.state == "absent") = true
  · simp [blockF, habs]
  · by_cases ht : blockTouches pol e ho = true
    · simp [blockF, habs, ht, blockUpd_idem]
    · simp [blockF, habs, ht]

lemma applyCmds_blocks (pol : String) (e : UserRecord) (ho : Option UserRecord)
    (hu : noSpace e.username) (hrole : condRole e ho = true → noSpace (e.role.getD ""))
    (hpriv : condPriv e ho = true → noSpace (toString (e.privilege.getD 0))) :
    ∀ (k : Nat) (st : List UserRecord), 1 ≤ k →
      findHave (applyCmds ((List.replicate k (renderOne pol (e, ho))).flatten) st) e.username =
        blockF pol e ho (findHave st e.username)
  | 0, _, h => absurd h (by omega)
  | 1, st, _ => by
    simp only [List.replicate_succ, List.replicate_zero, List.flatten_cons, List.flatten_nil,
      List.append_nil]
    exact findHave_applyCmds_block pol e ho st hu hrole hpriv
  | (k + 2), st, _ => by
    have ih := applyCmds_blocks pol e ho hu hrole hpriv (k + 1)
      (applyCmds (renderOne pol (e, ho)) st) (by omega)
    rw [List.replicate_succ, List.flatten_cons, applyCmds_append, ih,
      findHave_applyCmds_block pol e ho st hu hrole hpriv, blockF_idem]

/-- The number of `(want, have)` pairs `update_objects` emits for one entry. -/
def pairCount (e : UserRecord) (hav : List UserRecord) : Nat :=
  match findHave hav e.username with
  | none => if e.state == "present" then 1 else 0
  | some item => diffCount e item

lemma updateOne_eq_replicate (e : UserRecord) (hav : List UserRecord) :
    updateOne e hav = List.replicate (pairCount e hav) (e, findHave hav e.username) := by
  rw [updateOne, pairCount]
  cases hf : findHave hav e.username with
  | none => by_cases hp : (e.state == "present") = true <;> simp [hp]
  | some item =>
    show (List.filter (diffPred e item) fieldList).map (fun _ => (e, some item)) =
      List.replicate (diffCount e item) (e, some item)
    rw [List.map_const']
    rfl

lemma entry_cmds_eq (pol : String) (e : UserRecord) (hav : List UserRecord) :
    (updateOne e hav).flatMap (renderOne pol) =
      (List.replicate (pairCount e hav)
        (renderOne pol (e, findHave hav e.username))).flatten := by
  rw [updateOne_eq_replicate, List.flatMap_def, List.map_replicate]

lemma mem_ite_singleton {P : Prop} [Decidable P] {c a : String}
    (h : c ∈ (if P then [a] else [])) : c = a := by
  split at h
  · exact List.mem_singleton.mp h
  · cases h

lemma applyCmd_addCmd_other (st : List UserRecord) (u x v : String) (hu : noSpace u)
    (hv : v ≠ u) : findHave (applyCmd st (addCmd u x)) v = findHave st v := by
  rw [applyCmd, addCmd_words u x hu]
  obtain ⟨w, ws, hw⟩ := List.exists_cons_of_ne_nil (splitSpace_ne_nil x.data)
  rw [hw, List.map_cons]
  refine applyCmdW_preserves st _ v (fun u' h => ?_)
  rw [show cmdTarget ("username" :: u :: String.mk w :: ws.map (fun c => String.mk c)) =
    some u from rfl] at h
  cases h
  exact hv

lemma applyCmd_noUser_other (st : List UserRecord) (u v : String) (hu : noSpace u)
    (hv : v ≠ u) : findHave (applyCmd st ("no username " ++ u)) v = findHave st v := by
  rw [applyCmd_noUser st u hu]
  exact findHave_filter_other st u v hv

lemma renderOne_target (pol : String) (e : UserRecord) (ho : Option UserRecord)
    (hu : noSpace e.username) :
    ∀ c ∈ renderOne pol (e, ho), ∀ (st : List UserRecord) (v : String), v ≠ e.username →
      findHave (applyCmd st c) v = findHave st v := by
  intro c hc st v hv
  rw [renderOne] at hc
  by_cases habs : ((e, ho).1.state == "absent") = true
  · rw [if_pos habs] at hc
    rw [List.mem_singleton.mp hc]
    exact applyCmd_noUser_other st _ v hu hv
  · rw [if_neg habs] at hc
    simp only [List.mem_append] at hc
    rcases hc with ((((h | h) | h) | h) | h)
    · rw [roleCmds_eq] at h
      rw [mem_ite_singleton h]
      exact applyCmd_addCmd_other st _ _ v hu hv
    · rw [privCmds_eq] at h
      rw [mem_ite_singleton h]
      exact applyCmd_addCmd_other st _ _ v hu hv
    · rw [pwCmds_eq] at h
      rw [mem_ite_singleton h]
      exact applyCmd_addCmd_other st _ _ v hu hv
    · rw [sshCmds_eq] at h
      rw [mem_ite_singleton h]
      exact applyCmd_addCmd_other st _ _ v hu hv
    · rw [nopCmds_eq] at h
      rw [mem_ite_singleton h]
      exact applyCmd_addCmd_other st _ _ v hu hv

lemma applyCmds_preserve (cs : List String) (st : List UserRecord) (v : String)
    (h : ∀ c ∈ cs, ∀ st', findHave (applyCmd st' c) v = findHave st' v) :
    findHave (applyCmds cs st) v = findHave st v := by
  induction cs generalizing st with
  | nil => rfl
  | cons c t ih =>
    rw [show applyCmds (c :: t) st = applyCmds t (applyCmd st c) from rfl,
      ih (applyCmd st c) (fun c' hc' st' => h c' (List.mem_cons_of_mem _ hc') st')]
    exact h c (List.mem_cons_self _ _) st

lemma entryCmds_preserve (pol : String) (e : UserRecord) (hav : List UserRecord)
    (v : String) (hu : noSpace e.username) (hv : v ≠ e.username) (st : List UserRecord) :
    findHave (applyCmds ((updateOne e hav).flatMap (renderOne pol)) st) v = findHave st v := by
  apply applyCmds_preserve
  intro c hc st'
  rw [entry_cmds_eq] at hc
  obtain ⟨l', hl', hcl'⟩ := List.mem_flatten.mp hc
  rw [(List.eq_of_mem_replicate hl' : l' = renderOne pol (e, findHave hav e.username))] at hcl'
  exact renderOne_target pol e _ hu c hcl' st' v hv

/-! ### Second-pass emptiness -/

lemma pyInt_toString_bounded (v : Int) (h1 : 1 ≤ v) (h15 : v ≤ 15) :
    pyInt (toString v) = some v := by
  interval_cases v <;> rfl

lemma noSpace_toString_bounded (v : Int) (h1 : 1 ≤ v) (h15 : v ≤ 15) :
    noSpace (toString v) := by
  interval_cases v <;> (unfold noSpace; decide)

/-- The want entry's truthy renderer fields already hold in `r`. -/
def settled (e r : UserRecord) : Prop :=
  (truthyStr e.role = true → r.role = e.role) ∧
  (truthyInt e.privilege = true → r.privilege = e.privilege) ∧
  (truthyStr e.sshkey = true → r.sshkey = e.sshkey) ∧
  (truthyBool e.nopassword = true → r.nopassword = e.nopassword)

lemma renderOne_settled (e r : UserRecord) (habs : (e.state == "absent") = false)
    (h : settled e r) : renderOne "on_create" (e, some r) = [] := by
  have hrole : condRole e (some r) = false := by
    cases ht : truthyStr e.role with
    | false => simp [condRole, ht]
    | true => simp [condRole, ht, hRole, h.1 ht]
  have hpriv : condPriv e (some r) = false := by
    cases ht : truthyInt e.privilege with
    | false => simp [condPriv, ht]
    | true => simp [condPriv, ht, hPriv, h.2.1 ht]
  have hpw : condPw "on_create" e (some r) = false := by
    simp [condPw]
  have hssh : condSsh e (some r) = false := by
    cases ht : truthyStr e.sshkey with
    | false => simp [condSsh, ht]
    | true => simp [condSsh, ht, hSshkey, h.2.2.1 ht]
  have hnop : condNop e (some r) = false := by
    cases ht : truthyBool e.nopassword with
    | false => simp [condNop, ht]
    | true => simp [condNop, ht, hNop, h.2.2.2 ht]
  rw [renderOne, if_neg (by simp [habs]), roleCmds_eq, privCmds_eq, pwCmds_eq,
    sshCmds_eq, nopCmds_eq, hrole, hpriv, hpw, hssh, hnop]
  rfl

lemma renderOne_not_touches (pol : String) (e : UserRecord) (ho : Option UserRecord)
    (habs : (e.state == "absent") = false) (ht : blockTouches pol e ho = false) :
    renderOne pol (e, ho) = [] := by
  have h5 := ht
  simp only [blockTouches, Bool.or_eq_false_iff] at h5
  rw [renderOne, if_neg (by simp [habs]), roleCmds_eq, privCmds_eq, pwCmds_eq,
    sshCmds_eq, nopCmds_eq, h5.1.1.1.1, h5.1.1.1.2, h5.1.1.2, h5.1.2, h5.2]
  rfl

lemma diffPred_false_of_count_zero (e item : UserRecord) (h : diffCount e item = 0) :
    ∀ f ∈ fieldList, diffPred e item f = false := by
  intro f hf
  have hempty : fieldList.filter (diffPred e item) = [] :=
    List.length_eq_zero.mp h
  cases hd : diffPred e item f with
  | false => rfl
  | true =>
    have hmem : f ∈ fieldList.filter (diffPred e item) := List.mem_filter.mpr ⟨hf, hd⟩
    rw [hempty] at hmem
    cases hmem

lemma settled_of_diffPred (e item : UserRecord)
    (hrole : diffPred e item .role = false) (hpriv : diffPred e item .privilege = false)
    (hssh : diffPred e item .sshkey = false) (hnop : diffPred e item .nopassword = false) :
    settled e item := by
  refine ⟨fun ht => ?_, fun ht => ?_, fun ht => ?_, fun ht => ?_⟩
  · have := hrole
    simp only [diffPred, fieldTruthy, fieldEq, ht, Bool.true_and, Bool.not_eq_false',
      beq_iff_eq] at this
    exact this.symm
  · have := hpriv
    simp only [diffPred, fieldTruthy, fieldEq, ht, Bool.true_and, Bool.not_eq_false',
      beq_iff_eq] at this
    exact this.symm
  · have := hssh
    simp only [diffPred, fieldTruthy, fieldEq, ht, Bool.true_and, Bool.not_eq_false',
      beq_iff_eq] at this
    exact this.symm
  · have := hnop
    simp only [diffPred, fieldTruthy, fieldEq, ht, Bool.true_and, Bool.not_eq_false',
      beq_iff_eq] at this
    exact this.symm

lemma state_not_absent_of_diffPred (e item : UserRecord) (hip : item.state = "present")
    (h : diffPred e item Field.state = false) : (e.state == "absent") = false := by
  cases hb : (e.state == "absent") with
  | false => rfl
  | true =>
    have habs : e.state = "absent" := by simpa using hb
    simp [diffPred, fieldTruthy, fieldEq, habs, hip] at h

lemma cond_eq_diffPred_role (e item : UserRecord) :
    condRole e (some item) = diffPred e item .role := by
  by_cases h : e.role = item.role <;>
    simp [condRole, diffPred, fieldTruthy, fieldEq, hRole, h]

lemma cond_eq_diffPred_priv (e item : UserRecord) :
    condPriv e (some item) = diffPred e item .privilege := by
  by_cases h : e.privilege = item.privilege <;>
    simp [condPriv, diffPred, fieldTruthy, fieldEq, hPriv, h]

lemma cond_eq_diffPred_ssh (e item : UserRecord) :
    condSsh e (some item) = diffPred e item .sshkey := by
  by_cases h : e.sshkey = item.sshkey <;>
    simp [condSsh, diffPred, fieldTruthy, fieldEq, hSshkey, h]

lemma cond_eq_diffPred_nop (e item : UserRecord) :
    condNop e (some item) = diffPred e item .nopassword := by
  by_cases h : e.nopassword = item.nopassword <;>
    simp [condNop, diffPred, fieldTruthy, fieldEq, hNop, h]

lemma flatten_replicate_nil (k : Nat) :
    (List.replicate k ([] : List String)).flatten = [] := by
  induction k with
  | zero => rfl
  | succ n ih => rw [List.replicate_succ, List.flatten_cons, ih]; rfl

lemma entry_second_settled (e : UserRecord) (st' : List UserRecord) (r : UserRecord)
    (hf : findHave st' e.username = some r) (habs : (e.state == "absent") = false)
    (h : settled e r) :
    (updateOne e st').flatMap (renderOne "on_create") = [] := by
  rw [entry_cmds_eq, hf, renderOne_settled e r habs h, flatten_replicate_nil]

lemma entry_second_none_absent (pol : String) (e : UserRecord) (st' : List UserRecord)
    (hf : findHave st' e.username = none) (hab : (e.state == "present") = false) :
    (updateOne e st').flatMap (renderOne pol) = [] := by
  rw [updateOne, hf]
  simp [hab]

lemma entry_second_none_empty (e : UserRecord) (st' : List UserRecord)
    (hf : findHave st' e.username = none)
    (hempty : renderOne "on_create" (e, none) = []) :
    (updateOne e st').flatMap (renderOne "on_create") = [] := by
  rw [updateOne, hf]
  split
  · simp [hempty]
  · next x item heq => cases heq

lemma settled_blockF (pol : String) (e : UserRecord) (ho : Option UserRecord) (r : UserRecord)
    (habs : (e.state == "absent") = false)
    (hpriv : ∀ v, e.privilege = some v → v ≠ 0 → pyInt (toString v) = some v)
    (hr : blockF pol e ho ho = some r) :
    settled e r := by
  rw [blockF, if_neg (by simp [habs])] at hr
  by_cases ht : blockTouches pol e ho = true
  · rw [if_pos ht] at hr
    have hre : r = blockUpd e ho (ho.getD (newUser e.username)) := by
      cases hr
      rfl
    subst hre
    refine ⟨fun htr => ?_, fun htr => ?_, fun htr => ?_, fun htr => ?_⟩
    · rw [show (blockUpd e ho (ho.getD (newUser e.username))).role =
        (if condRole e ho then some (e.role.getD "") else (ho.getD (newUser e.username)).role)
        from rfl]
      cases hc : condRole e ho with
      | true =>
        simp only [hc, if_true]
        cases hrv : e.role with
        | none => rw [hrv] at htr; cases htr
        | some s => simp [hrv]
      | false =>
        simp only [hc, Bool.false_eq_true, if_false]
        cases ho with
        | none =>
          exfalso
          cases hrv : e.role with
          | none => rw [hrv] at htr; cases htr
          | some s =>
            rw [hrv] at htr
            simp [condRole, hRole, hrv, htr] at hc
        | some item =>
          show item.role = e.role
          have heq : e.role = item.role := by
            by_contra hne
            rw [condRole, hRole] at hc
            simp [htr, hne] at hc
          exact heq.symm
    · rw [show (blockUpd e ho (ho.getD (newUser e.username))).privilege =
        (if condPriv e ho then pyInt (toString (e.privilege.getD 0))
         else (ho.getD (newUser e.username)).privilege) from rfl]
      cases hc : condPriv e ho with
      | true =>
        simp only [hc, if_true]
        cases hrv : e.privilege with
        | none => rw [hrv] at htr; cases htr
        | some v =>
          have hv : v ≠ 0 := by
            rw [hrv] at htr
            simpa [truthyInt] using htr
          exact hpriv v hrv hv
      | false =>
        simp only [hc, Bool.false_eq_true, if_false]
        cases ho with
        | none =>
          exfalso
          cases hrv : e.privilege with
          | none => rw [hrv] at htr; cases htr
          | some v =>
            rw [hrv] at htr
            simp [condPriv, hPriv, hrv, htr] at hc
        | some item =>
          show item.privilege = e.privilege
          have heq : e.privilege = item.privilege := by
            by_contra hne
            rw [condPriv, hPriv] at hc
            simp [htr, hne] at hc
          exact heq.symm
    · rw [show (blockUpd e ho (ho.getD (newUser e.username))).sshkey =
        (if condSsh e ho then some (e.sshkey.getD "") else (ho.getD (newUser e.username)).sshkey)
        from rfl]
      cases hc : condSsh e ho with
      | true =>
        simp only [hc, if_true]
        cases hrv : e.sshkey with
        | none => rw [hrv] at htr; cases htr
        | some s => simp [hrv]
      | false =>
        simp only [hc, Bool.false_eq_true, if_false]
        cases ho with
        | none =>
          exfalso
          cases hrv : e.sshkey with
          | none => rw [hrv] at htr; cases htr
          | some s =>
            rw [hrv] at htr
            simp [condSsh, hSshkey, hrv, htr] at hc
        | some item =>
          show item.sshkey = e.sshkey
          have heq : e.sshkey = item.sshkey := by
            by_contra hne
            rw [condSsh, hSshkey] at hc
            simp [htr, hne] at hc
          exact heq.symm
    · rw [show (blockUpd e ho (ho.getD (newUser e.username))).nopassword =
        (if condNop e ho then some true else (ho.getD (newUser e.username)).nopassword)
        from rfl]
      cases hc : condNop e ho with
      | true =>
        simp only [hc, if_true]
        cases hrv : e.nopassword with
        | none => rw [hrv] at htr; cases htr
        | some b =>
          have hb : b = true := by
            rw [hrv] at htr
            simpa [truthyBool] using htr
          rw [hb]
      | false =>
        simp only [hc, Bool.false_eq_true, if_false]
        cases ho with
        | none =>
          exfalso
          cases hrv : e.nopassword with
          | none => rw [hrv] at htr; cases htr
          | some b =>
            rw [hrv] at htr
            simp [condNop, hNop, hrv, htr] at hc
        | some item =>
          show item.nopassword = e.nopassword
          have heq : e.nopassword = item.nopassword := by
            by_contra hne
            rw [condNop, hNop] at hc
            simp [htr, hne] at hc
          exact heq.symm
  · have ht' : blockTouches pol e ho = false := by
      revert ht
      cases blockTouches pol e ho <;> simp
    rw [if_neg (by simp [ht'])] at hr
    simp only [blockTouches, Bool.or_eq_false_iff] at ht'
    refine settled_of_diffPred e r ((cond_eq_diffPred_role e r).symm.trans (hr ▸ ht'.1.1.1.1))
      ((cond_eq_diffPred_priv e r).symm.trans (hr ▸ ht'.1.1.1.2))
      ((cond_eq_diffPred_ssh e r).symm.trans (hr ▸ ht'.1.2))
      ((cond_eq_diffPred_nop e r).symm.trans (hr ▸ ht'.2))

/-- Well-formedness of a normalized want record: the username is a
blank-free token, a truthy role value is blank-free, and a truthy
privilege passed `validate_privilege`, so it lies in `[1,15]`. -/
structure WfWant (r : UserRecord) : Prop where
  uns : noSpace r.username
  rols : ∀ s, r.role = some s → s ≠ "" → noSpace s
  privs : ∀ v, r.privilege = some v → v ≠ 0 → 1 ≤ v ∧ v ≤ 15

lemma wf_role_noSpace (e : UserRecord) (ho : Option UserRecord)
    (h : ∀ s, e.role = some s → s ≠ "" → noSpace s) :
    condRole e ho = true → noSpace (e.role.getD "") := by
  intro hc
  have ht : truthyStr e.role = true := by
    rw [condRole, Bool.and_eq_true] at hc
    exact hc.1
  cases hrv : e.role with
  | none => rw [hrv] at ht; cases ht
  | some s =>
    have hs : s ≠ "" := by
      rw [hrv] at ht
      simpa [truthyStr] using ht
    exact h s hrv hs

lemma wf_priv_noSpace (e : UserRecord) (ho : Option UserRecord)
    (h : ∀ v, e.privilege = some v → v ≠ 0 → 1 ≤ v ∧ v ≤ 15) :
    condPriv e ho = true → noSpace (toString (e.privilege.getD 0)) := by
  intro hc
  have ht : truthyInt e.privilege = true := by
    rw [condPriv, Bool.and_eq_true] at hc
    exact hc.1
  cases hrv : e.privilege with
  | none => rw [hrv] at ht; cases ht
  | some v =>
    have hv : v ≠ 0 := by
      rw [hrv] at ht
      simpa [truthyInt] using ht
    exact noSpace_toString_bounded v (h v hrv hv).1 (h v hrv hv).2

lemma flatMap_eq_nil_of {α : Type} (l : List α) (f : α → List String)
    (h : ∀ a ∈ l, f a = []) : l.flatMap f = [] := by
  induction l with
  | nil => rfl
  | cons a t ih =>
    rw [List.flatMap_cons, h a (List.mem_cons_self _ _),
      ih (fun x hx => h x (List.mem_cons_of_mem _ hx))]
    rfl

lemma reconcile_eq (pol : String) (want hav : List UserRecord) :
    reconcile pol want hav =
      want.flatMap (fun e => (updateOne e hav).flatMap (renderOne pol)) := by
  rw [reconcile, map_obj_to_commands, update_objects]
  induction want with
  | nil => rfl
  | cons e t ih =>
    rw [List.flatMap_cons, List.flatMap_cons, List.flatMap_append, ih]

/-- Claim C3 (amended): reconciling the same want list twice, with the
second pass's have derived by applying the first pass's commands and
re-parsing (passwords parsing to null), yields an empty command list —
provided `update_password` is `'on_create'`, the want usernames are
distinct, the want records are normalizer-shaped (blank-free usernames and
roles, validated privilege) and the have records are parser-shaped
(`state=present`).  Under `'always'`, a want password for a persisting
account re-emits the secret command every pass (see the counterexample). -/
theorem claim_C3 (want hav : List UserRecord)
    (hw : ∀ e ∈ want, WfWant e)
    (hhs : ∀ r ∈ hav, r.state = "present")
    (hnd : (want.map (fun r => r.username)).Nodup) :
    reconcile "on_create" want (applyCmds (reconcile "on_create" want hav) hav) = [] := by
  rw [reconcile_eq "on_create" want (applyCmds (reconcile "on_create" want hav) hav)]
  apply flatMap_eq_nil_of
  intro e he
  obtain ⟨l1, l2, hsplit⟩ := List.append_of_mem he
  have hwe : WfWant e := hw e he
  have hd1 : ∀ e' ∈ l1, e'.username ≠ e.username := by
    intro e' he1 heq
    have hnd' := hnd
    rw [hsplit, List.map_append, List.map_cons] at hnd'
    exact (List.nodup_append.mp hnd').2.2 (heq ▸ List.mem_map_of_mem _ he1)
      (List.mem_cons_self _ _)
  have hd2 : ∀ e' ∈ l2, e'.username ≠ e.username := by
    intro e' he2 heq
    have hnd' := hnd
    rw [hsplit, List.map_append, List.map_cons] at hnd'
    exact (List.nodup_cons.mp (List.nodup_append.mp hnd').2.1).1
      (heq ▸ List.mem_map_of_mem _ he2)
  have hpres : ∀ l : List UserRecord,
      (∀ e' ∈ l, noSpace e'.username ∧ e'.username ≠ e.username) →
      ∀ st0 : List UserRecord,
        findHave (applyCmds (l.flatMap (fun e' =>
          (updateOne e' hav).flatMap (renderOne "on_create"))) st0) e.username =
          findHave st0 e.username := by
    intro l hl st0
    apply applyCmds_preserve
    intro c hc st1
    obtain ⟨e', he', hce⟩ := List.mem_flatMap.mp hc
    rw [entry_cmds_eq] at hce
    obtain ⟨l', hl', hcl'⟩ := List.mem_flatten.mp hce
    rw [List.eq_of_mem_replicate hl'] at hcl'
    exact renderOne_target "on_create" e' _ (hl e' he').1 c hcl' st1 e.username
      (Ne.symm (hl e' he').2)
  have hl1 : ∀ e' ∈ l1, noSpace e'.username ∧ e'.username ≠ e.username := fun e' h =>
    ⟨(hw e' (by rw [hsplit]; exact List.mem_append.mpr (Or.inl h))).uns, hd1 e' h⟩
  have hl2 : ∀ e' ∈ l2, noSpace e'.username ∧ e'.username ≠ e.username := fun e' h =>
    ⟨(hw e' (by
        rw [hsplit]
        exact List.mem_append.mpr (Or.inr (List.mem_cons_of_mem _ h)))).uns,
      hd2 e' h⟩
  have hres : findHave (applyCmds (reconcile "on_create" want hav) hav) e.username =
      (if pairCount e hav = 0 then findHave hav e.username
       else blockF "on_create" e (findHave hav e.username) (findHave hav e.username)) := by
    rw [hsplit, reconcile_eq, List.flatMap_append, List.flatMap_cons,
      applyCmds_append, applyCmds_append, hpres l2 hl2, entry_cmds_eq]
    by_cases hn : pairCount e hav = 0
    · rw [if_pos hn, hn]
      simp only [List.replicate_zero, List.flatten_nil]
      exact hpres l1 hl1 hav
    · rw [if_neg hn,
        applyCmds_blocks "on_create" e (findHave hav e.username) hwe.uns
          (wf_role_noSpace e _ hwe.rols) (wf_priv_noSpace e _ hwe.privs)
          (pairCount e hav) _ (Nat.one_le_iff_ne_zero.mpr hn),
        hpres l1 hl1]
  by_cases hn : pairCount e hav = 0
  · rw [if_pos hn] at hres
    cases hfho : findHave hav e.username with
    | none =>
      have hab : (e.state == "present") = false := by
        cases hb : (e.state == "present") with
        | false => rfl
        | true => simp [pairCount, hfho, hb] at hn
      exact entry_second_none_absent "on_create" e _ (by rw [hres, hfho]) hab
    | some item =>
      have hdc : diffCount e item = 0 := by simpa [pairCount, hfho] using hn
      have hall := diffPred_false_of_count_zero e item hdc
      have hsettled := settled_of_diffPred e item (hall _ (by simp [fieldList]))
        (hall _ (by simp [fieldList])) (hall _ (by simp [fieldList]))
        (hall _ (by simp [fieldList]))
      have hip : item.state = "present" := hhs item (List.mem_of_find?_eq_some hfho)
      have habs := state_not_absent_of_diffPred e item hip (hall _ (by simp [fieldList]))
      exact entry_second_settled e _ item (by rw [hres, hfho]) habs hsettled
  · rw [if_neg hn] at hres
    by_cases habs : (e.state == "absent") = true
    · have hnone : findHave (applyCmds (reconcile "on_create" want hav) hav) e.username =
          none := by
        rw [hres, blockF, if_pos habs]
      have hab : (e.state == "present") = false := by
        have hs : e.state = "absent" := by simpa using habs
        simp [hs]
      exact entry_second_none_absent "on_create" e _ hnone hab
    · have habs' : (e.state == "absent") = false := by
        revert habs
        cases (e.state == "absent") <;> simp
      by_cases ht : blockTouches "on_create" e (findHave hav e.username) = true
      · have hpr : ∀ v, e.privilege = some v → v ≠ 0 → pyInt (toString v) = some v :=
          fun v hv hv0 =>
            pyInt_toString_bounded v (hwe.privs v hv hv0).1 (hwe.privs v hv hv0).2
        have hbsome : blockF "on_create" e (findHave hav e.username)
            (findHave hav e.username) =
            some (blockUpd e (findHave hav e.username)
              ((findHave hav e.username).getD (newUser e.username))) := by
          rw [blockF, if_neg (by simp [habs']), if_pos ht]
        have hset := settled_blockF "on_create" e (findHave hav e.username) _ habs' hpr hbsome
        exact entry_second_settled e _ _ (by rw [hres, hbsome]) habs' hset
      · have ht' : blockTouches "on_create" e (findHave hav e.username) = false := by
          revert ht
          cases blockTouches "on_create" e (findHave hav e.username) <;> simp
        have hres' : findHave (applyCmds (reconcile "on_create" want hav) hav) e.username =
            findHave hav e.username := by
          rw [hres, blockF, if_neg (by simp [habs']), if_neg (by simp [ht'])]
        cases hfho : findHave hav e.username with
        | none =>
          exact entry_second_none_empty e _ (by rw [hres', hfho])
            (renderOne_not_touches "on_create" e none habs' (hfho ▸ ht'))
        | some item =>
          have h5 := ht'
          rw [hfho] at h5
          simp only [blockTouches, Bool.or_eq_false_iff] at h5
          have hsettled := settled_of_diffPred e item
            ((cond_eq_diffPred_role e item).symm.trans h5.1.1.1.1)
            ((cond_eq_diffPred_priv e item).symm.trans h5.1.1.1.2)
            ((cond_eq_diffPred_ssh e item).symm.trans h5.1.2)
            ((cond_eq_diffPred_nop e item).symm.trans h5.2)
          exact entry_second_settled e _ item (by rw [hres', hfho]) habs' hsettled

/-- Claim C3 witness: a typical create-plus-delete scenario under
`on_create` is idempotent. -/
theorem claim_C3_witness :
    (([(⟨"bob", some "pw", some true, some 7, some "ops", some "sshkey AAA B", "present"⟩ :
        UserRecord), ⟨"carol", none, none, none, none, none, "absent"⟩].map
      (fun r => r.username)).Nodup) ∧
    reconcile "on_create"
      [⟨"bob", some "pw", some true, some 7, some "ops", some "sshkey AAA B", "present"⟩,
       ⟨"carol", none, none, none, none, none, "absent"⟩]
      (applyCmds
        (reconcile "on_create"
          [⟨"bob", some "pw", some true, some 7, some "ops", some "sshkey AAA B", "present"⟩,
           ⟨"carol", none, none, none, none, none, "absent"⟩]
          [⟨"carol", none, some false, some 3, none, none, "present"⟩])
        [⟨"carol", none, some false, some 3, none, none, "present"⟩]) = [] := by
  constructor
  · decide
  · exact claim_C3
      [⟨"bob", some "pw", some true, some 7, some "ops", some "sshkey AAA B", "present"⟩,
       ⟨"carol", none, none, none, none, none, "absent"⟩]
      [⟨"carol", none, some false, some 3, none, none, "present"⟩]
      (by
        intro e he
        simp only [List.mem_cons, List.not_mem_nil, or_false] at he
        rcases he with rfl | rfl
        · exact ⟨(by unfold noSpace; decide),
            (fun s hs hs0 => by cases hs; unfold noSpace; decide),
            (fun v hv hv0 => by cases hv; omega)⟩
        · exact ⟨(by unfold noSpace; decide), (fun s hs hs0 => by cases hs),
            (fun v hv hv0 => by cases hv)⟩)
      (by
        intro r hr
        simp only [List.mem_cons, List.not_mem_nil, or_false] at hr
        rcases hr with rfl
        rfl)
      (by decide)

end EosUser
